import Mathlib

/-!
Verification development for the file-meta-utils library: a shallow
embedding of its TIFF/Exif codec (src/tiff.js, src/exif.js), JPEG segment
model (src/jpg.js) and PNG chunk model (src/png.js), together with proofs
and refutations of the specified properties.

Byte buffers written by the encoders are modelled as a length plus a
memory function `Nat → Nat` (a `Uint8Array`); reads through a `DataView`
are bounds-checked and return `Option`, matching the JS code where an
out-of-range `DataView` access throws and the whole decode fails.
JS strings are modelled as lists of character codes; `TextDecoder` /
`TextEncoder` conversion between byte arrays and strings is modelled as
the identity on code lists (exact for the ASCII data the library handles).
IEEE-754 floats are modelled by their bit patterns: a `Float32Array`
element is a 32-bit pattern, a `Float64Array` element a 64-bit pattern,
and `getFloat32` widening into a 64-bit slot is the exact bit-level
widening `f32BitsToF64Bits` (single-precision values are exactly
representable in double precision, so no rounding is involved).
-/

namespace FMU

/-- Byte buffer: a length together with a memory function, modelling a
`Uint8Array` (fresh arrays are zero-filled). -/
structure Buf where
  len : Nat
  mem : Nat → Nat

/-- Build a buffer from a literal byte list (bytes are taken mod 256 as a
`Uint8Array` would store them). -/
def Buf.ofList (l : List Nat) : Buf :=
  ⟨l.length, fun p => (l.getD p 0) % 256⟩

/-- Zero-filled buffer of a given size, as `new Uint8Array(n)`. -/
def Buf.zeros (n : Nat) : Buf := ⟨n, fun _ => 0⟩

/-- Bounds-checked single byte read (`DataView.getUint8`): out of range
throws in JS, here `none`. -/
def get8 (b : Buf) (p : Nat) : Option Nat :=
  if p < b.len then some (b.mem p) else none

/-- Endian-parameterised 16-bit read (`DataView.getUint16`). -/
def readU16 (b : Buf) (le : Bool) (p : Nat) : Option Nat := do
  let x0 ← get8 b p
  let x1 ← get8 b (p + 1)
  some (if le then x0 + 256 * x1 else 256 * x0 + x1)

/-- Endian-parameterised 32-bit read (`DataView.getUint32`). -/
def readU32 (b : Buf) (le : Bool) (p : Nat) : Option Nat := do
  let x0 ← get8 b p
  let x1 ← get8 b (p + 1)
  let x2 ← get8 b (p + 2)
  let x3 ← get8 b (p + 3)
  some (if le then x0 + 256 * x1 + 65536 * x2 + 16777216 * x3
        else x3 + 256 * x2 + 65536 * x1 + 16777216 * x0)

/-- Endian-parameterised 64-bit read: the bit pattern that
`DataView.getFloat64` would interpret. -/
def readU64 (b : Buf) (le : Bool) (p : Nat) : Option Nat := do
  let lo ← readU32 b le p
  let hi ← readU32 b le (p + 4)
  some (if le then lo + 4294967296 * hi else 4294967296 * lo + hi)

/-- JS `ToInt32` of a value in `[0, 2^32)`: the reinterpretation performed
when a u32 is stored into an `Int32Array` slot. -/
def toI32 (n : Nat) : Int :=
  if n % 4294967296 < 2147483648 then ((n % 4294967296 : Nat) : Int)
  else ((n % 4294967296 : Nat) : Int) - 4294967296

/-- JS `ToInt8`, for `Int8Array` slots / `DataView.getInt8`. -/
def toI8 (n : Nat) : Int :=
  if n % 256 < 128 then ((n % 256 : Nat) : Int) else ((n % 256 : Nat) : Int) - 256

/-- JS `ToInt16`, for `Int16Array` slots / `DataView.getInt16`. -/
def toI16 (n : Nat) : Int :=
  if n % 65536 < 32768 then ((n % 65536 : Nat) : Int)
  else ((n % 65536 : Nat) : Int) - 65536

/-- Signed 8-bit read (`DataView.getInt8`). -/
def readI8 (b : Buf) (p : Nat) : Option Int := (get8 b p).map toI8

/-- Signed 16-bit read (`DataView.getInt16`). -/
def readI16 (b : Buf) (le : Bool) (p : Nat) : Option Int := (readU16 b le p).map toI16

/-- Signed 32-bit read (`DataView.getInt32`). -/
def readI32 (b : Buf) (le : Bool) (p : Nat) : Option Int := (readU32 b le p).map toI32

/-- Exact bit-level widening of an IEEE-754 binary32 pattern to the
binary64 pattern denoting the same value: this is what happens when the
result of `getFloat32` is stored into a `Float64Array` slot. -/
def f32BitsToF64Bits (b : Nat) : Nat :=
  let b := b % 4294967296
  let s := b / 2147483648
  let e := (b / 8388608) % 256
  let m := b % 8388608
  if e = 255 then s * 2 ^ 63 + 2047 * 2 ^ 52 + m * 2 ^ 29
  else if e = 0 then
    if m = 0 then s * 2 ^ 63
    else
      let k := Nat.log2 m
      s * 2 ^ 63 + (874 + k) * 2 ^ 52 + (m - 2 ^ k) * 2 ^ (52 - k)
  else s * 2 ^ 63 + (e + 896) * 2 ^ 52 + m * 2 ^ 29

/-- IFD entry value (`IfdEntryValue` in src/tiff.js): a typed array of
integers, a rational pair list, an ASCII string (list of char codes), a
float bit-pattern list, or a nested sub-IFD object. Entries are `(tag,
type, value)` triples. -/
inductive EntryValue where
  | uint8s (v : List Nat)
  | asciiV (s : List Nat)
  | uint16s (v : List Nat)
  | uint32s (v : List Nat)
  | urationals (v : List (Nat × Nat))
  | int8s (v : List Int)
  | int16s (v : List Int)
  | int32s (v : List Int)
  | srationals (v : List (Int × Int))
  | singles (v : List Nat)
  | doubles (v : List Nat)
  | subIfd (entries : List (Nat × Nat × EntryValue))

/-- An IFD entry `{tag, type, value}`. -/
abbrev IfdEntry := Nat × Nat × EntryValue

/-- An IFD is its ordered entry list. -/
abbrev Ifd := List IfdEntry

/-- A decoded TIFF: endianness flag and the top-level IFD chain. -/
structure Tiff where
  littleEndian : Bool
  ifds : List Ifd

/-- JS `value.length` of an entry value: typed arrays and strings report
their element count; a sub-IFD object has no `length` (undefined, which
every numeric comparison rejects), modelled as 0. -/
def EntryValue.jsLength : EntryValue → Nat
  | .uint8s v => v.length
  | .asciiV s => s.length
  | .uint16s v => v.length
  | .uint32s v => v.length
  | .urationals v => v.length
  | .int8s v => v.length
  | .int16s v => v.length
  | .int32s v => v.length
  | .srationals v => v.length
  | .singles v => v.length
  | .doubles v => v.length
  | .subIfd _ => 0

/-- JS `value[i]` as a number, for the unsigned vector arms (used by the
Exif adapter to fetch the sub-IFD offset out of a UINT32 entry). -/
def EntryValue.numAt : EntryValue → Nat → Nat
  | .uint8s v, i => v.getD i 0
  | .uint16s v, i => v.getD i 0
  | .uint32s v, i => v.getD i 0
  | _, _ => 0

/-- The byte list of a `uint8s` arm (used by the Exif adapter, which only
looks at UNDEFINED8 entries). -/
def EntryValue.bytes : EntryValue → List Nat
  | .uint8s v => v
  | _ => []

/-- Size in bytes of each TIFF element type (`getTypeSize` in
src/tiff.js); unknown type codes throw. -/
def getTypeSize (ty : Nat) : Option Nat :=
  match ty with
  | 1 => some 1    -- UINT8
  | 2 => some 1    -- ASCII
  | 3 => some 2    -- UINT16
  | 4 => some 4    -- UINT32
  | 5 => some 8    -- URATIONAL
  | 6 => some 1    -- INT8
  | 7 => some 1    -- UNDEFINED8
  | 8 => some 2    -- INT16
  | 9 => some 4    -- INT32
  | 10 => some 8   -- SRATIONAL
  | 11 => some 4   -- SINGLE
  | 12 => some 8   -- DOUBLE
  | _ => none

/-- The element-reading loop shared by every numeric case of
`readEntryValue`: read `count` elements with `read1`, advancing the
cursor by `step` bytes per element. -/
def readLoop (step : Nat) (read1 : Nat → Option α) : Nat → Nat → Option (List α)
  | _, 0 => some []
  | p, count + 1 => do
    let x ← read1 p
    let rest ← readLoop step read1 (p + step) count
    some (x :: rest)

/-- Bytes `[a, b)` of a buffer as a list, with `Uint8Array.subarray`
clamping: indices past the end are silently dropped, never an error. -/
def Buf.extract (buf : Buf) (a b : Nat) : List Nat :=
  (List.range (min b buf.len - min a buf.len)).map (fun i => buf.mem (min a buf.len + i))

/-- The `readEntryValue` closure of `decodeIfd` in src/tiff.js: parse
`count` elements of type `ty` at `dataPtr`. Note two transcriptions from
the source kept verbatim: the SRATIONAL case reads with the unsigned u32
accessor and lets the `Int32Array` slot reinterpret (`toI32`), and the
DOUBLE case reads with the 32-bit float accessor (`getFloat32`) at a
stride of 8, its result widened by the `Float64Array` slot. -/
def readEntryValue (buf : Buf) (le : Bool) (dataPtr ty count : Nat) : Option EntryValue :=
  match ty with
  | 1 | 7 => (readLoop 1 (fun p => get8 buf p) dataPtr count).map .uint8s
  | 2 =>
    -- Count includes the null terminator, so subtract 1.
    some (.asciiV (buf.extract dataPtr (dataPtr + (count - 1))))
  | 3 => (readLoop 2 (fun p => readU16 buf le p) dataPtr count).map .uint16s
  | 4 => (readLoop 4 (fun p => readU32 buf le p) dataPtr count).map .uint32s
  | 5 =>
    (readLoop 8 (fun p => do
      let a ← readU32 buf le p
      let b ← readU32 buf le (p + 4)
      some (a, b)) dataPtr count).map .urationals
  | 6 => (readLoop 1 (fun p => readI8 buf p) dataPtr count).map .int8s
  | 8 => (readLoop 2 (fun p => readI16 buf le p) dataPtr count).map .int16s
  | 9 => (readLoop 4 (fun p => readI32 buf le p) dataPtr count).map .int32s
  | 10 =>
    (readLoop 8 (fun p => do
      let a ← readU32 buf le p
      let b ← readU32 buf le (p + 4)
      some (toI32 a, toI32 b)) dataPtr count).map .srationals
  | 11 => (readLoop 4 (fun p => readU32 buf le p) dataPtr count).map .singles
  | 12 =>
    (readLoop 8 (fun p => (readU32 buf le p).map f32BitsToF64Bits) dataPtr count).map .doubles
  | _ => none

/-- The `readEntry` closure of `decodeIfd`: parse one 12-byte entry
record at `ptr`, following the offset field when the payload does not fit
inline. Returns the entry and the cursor after the record. -/
def readEntry (buf : Buf) (le : Bool) (ptr : Nat) : Option (IfdEntry × Nat) := do
  let tag ← readU16 buf le ptr
  let ty ← readU16 buf le (ptr + 2)
  let count ← readU32 buf le (ptr + 4)
  let typeSize ← getTypeSize ty
  let dataByteLength := typeSize * count
  let dataPtr ← if dataByteLength ≤ 4 then some (ptr + 8) else readU32 buf le (ptr + 8)
  let value ← readEntryValue buf le dataPtr ty count
  some ((tag, ty, value), ptr + 12)

/-- The entry loop of `readEntries`: parse `n` consecutive entry
records. -/
def readEntriesLoop (buf : Buf) (le : Bool) : Nat → Nat → Option (List IfdEntry)
  | _, 0 => some []
  | ptr, n + 1 => do
    let (e, ptr') ← readEntry buf le ptr
    let rest ← readEntriesLoop buf le ptr' n
    some (e :: rest)

/-- `decodeIfd` from src/tiff.js: read the u16 entry count at `ptr`, then
that many entry records. Any failing read aborts the whole decode
(`MalformedData`), modelled by `none`. -/
def decodeIfd (buf : Buf) (ptr : Nat) (le : Bool) : Option Ifd := do
  let numEntries ← readU16 buf le ptr
  readEntriesLoop buf le (ptr + 2) numEntries

/-- The `readAllIfds` loop of `decodeTiff`: follow next-IFD offsets until
one is zero. The JS loop has no iteration bound (a cyclic offset chain
hangs it); `fuel` is an upper bound that is never exhausted on acyclic
inputs, where each iteration needs at least one in-bounds read. -/
def readAllIfds (buf : Buf) (le : Bool) : Nat → Nat → Option (List Ifd)
  | _, 0 => none
  | ptr, fuel + 1 =>
    if ptr = 0 then some []
    else do
      let ifd ← decodeIfd buf ptr le
      let ifdSize := 2 + ifd.length * 12
      let next ← readU32 buf le (ptr + ifdSize)
      let rest ← readAllIfds buf le next fuel
      some (ifd :: rest)

/-- `decodeTiff` from src/tiff.js: check the byte-order mark, read the
offset of IFD0 at byte 4, and walk the IFD chain. -/
def decodeTiff (buf : Buf) : Option Tiff := do
  let le ←
    if get8 buf 0 = some 0x49 ∧ get8 buf 1 = some 0x49 ∧
       get8 buf 2 = some 0x2A ∧ get8 buf 3 = some 0x00 then some true
    else if get8 buf 0 = some 0x4D ∧ get8 buf 1 = some 0x4D ∧
       get8 buf 2 = some 0x00 ∧ get8 buf 3 = some 0x2A then some false
    else none
  let first ← readU32 buf le 4
  let ifds ← readAllIfds buf le first (buf.len + 1)
  some ⟨le, ifds⟩

/-- Single byte store (`DataView.setUint8` / `Uint8Array` element
assignment): values are stored mod 256. -/
def writeU8 (m : Nat → Nat) (p v : Nat) : Nat → Nat :=
  fun q => if q = p then v % 256 else m q

/-- Endian-parameterised 16-bit store (`DataView.setUint16`). -/
def writeU16 (m : Nat → Nat) (le : Bool) (p v : Nat) : Nat → Nat :=
  let v := v % 65536
  if le then writeU8 (writeU8 m p v) (p + 1) (v / 256)
  else writeU8 (writeU8 m p (v / 256)) (p + 1) v

/-- Endian-parameterised 32-bit store (`DataView.setUint32`). -/
def writeU32 (m : Nat → Nat) (le : Bool) (p v : Nat) : Nat → Nat :=
  let v := v % 4294967296
  if le then
    writeU8 (writeU8 (writeU8 (writeU8 m p v) (p + 1) (v / 256)) (p + 2) (v / 65536))
      (p + 3) (v / 16777216)
  else
    writeU8 (writeU8 (writeU8 (writeU8 m p (v / 16777216)) (p + 1) (v / 65536)) (p + 2) (v / 256))
      (p + 3) v

/-- Endian-parameterised 64-bit store of a binary64 bit pattern
(`DataView.setFloat64`). -/
def writeU64 (m : Nat → Nat) (le : Bool) (p v : Nat) : Nat → Nat :=
  let v := v % 18446744073709551616
  if le then writeU32 (writeU32 m le p (v % 4294967296)) le (p + 4) (v / 4294967296)
  else writeU32 (writeU32 m le p (v / 4294967296)) le (p + 4) (v % 4294967296)

/-- Per-element write loop shared by the `writeEntryValue` cases. -/
def writeLoop (step : Nat) (w1 : (Nat → Nat) → Nat → α → (Nat → Nat)) :
    (Nat → Nat) → Nat → List α → (Nat → Nat)
  | m, _, [] => m
  | m, p, x :: xs => writeLoop step w1 (w1 m p x) (p + step) xs

/-- Write a byte list at consecutive positions (the UINT8/UNDEFINED8 and
ASCII element loops). -/
def writeBytes (m : Nat → Nat) (p : Nat) (xs : List Nat) : Nat → Nat :=
  writeLoop 1 (fun m p v => writeU8 m p v) m p xs

/-- `ifdEntryPointsToIfd` from src/tiff.js: type is UINT32 and the value
is an object carrying an `entries` array. -/
def ifdEntryPointsToIfd (e : IfdEntry) : Bool :=
  e.2.1 = 4 && match e.2.2 with | .subIfd _ => true | _ => false

mutual

/-- `getEncodedIfdSize` from src/tiff.js: bytes of the fixed-size front
region (entry count + 12·N records + next-IFD offset) and of the back
region (spilled payloads and whole nested IFDs) for one IFD.
`getTypeSize` throwing on an unknown type code propagates as `none`.
The JS path where a `.subIfd` value sits in an entry whose type is not
UINT32 multiplies `getTypeSize` with an undefined `length` (NaN, so the
`> 4` test is false); `jsLength = 0` models it. -/
def getEncodedIfdSize : List IfdEntry → Option (Nat × Nat)
  | [] => some (6, 0)
  | (_, ty, v) :: rest => do
    let (front, back) ← getEncodedIfdSize rest
    match v with
    | .subIfd _ =>
      if ty = 4 then do
        -- The full child IFD is always stored in the back
        let (childFront, childBack) ← getEncodedIfdSizeV v
        some (front + 12, back + childFront + childBack)
      else do
        let _ ← getTypeSize ty
        some (front + 12, back)
    | _ => do
      let dataLength ←
        if ty = 2 then
          -- ASCII needs a null terminator
          some (v.jsLength + 1)
        else do
          let ts ← getTypeSize ty
          some (ts * v.jsLength)
      some (front + 12, if dataLength > 4 then back + dataLength else back)
termination_by structural l => l

/-- Mutual partner of `getEncodedIfdSize`: size of the child IFD carried
by a `subIfd` value arm. -/
def getEncodedIfdSizeV : EntryValue → Option (Nat × Nat)
  | .subIfd sub => getEncodedIfdSize sub
  | _ => none
termination_by structural v => v

end

/-- `writeEntryValue` from src/tiff.js. The endianness slips of the
source are kept: INT16, INT32, SINGLE and DOUBLE are written without the
`littleEndian` argument, so `DataView` defaults to big-endian for them;
every other multi-byte case honours `le`. A value arm that does not
match the declared type writes nothing (unreachable for values built by
this library). -/
def writeEntryValue (m : Nat → Nat) (le : Bool) (dataPtr ty : Nat) :
    EntryValue → (Nat → Nat)
  | .uint8s xs =>
    if ty = 1 ∨ ty = 7 then writeBytes m dataPtr xs else m
  | .asciiV s =>
    if ty = 2 then
      -- Null terminator after the characters
      writeU8 (writeBytes m dataPtr s) (dataPtr + s.length) 0
    else m
  | .uint16s xs =>
    if ty = 3 then writeLoop 2 (fun m p v => writeU16 m le p v) m dataPtr xs else m
  | .uint32s xs =>
    if ty = 4 then writeLoop 4 (fun m p v => writeU32 m le p v) m dataPtr xs else m
  | .urationals xs =>
    if ty = 5 then
      writeLoop 8 (fun m p v => writeU32 (writeU32 m le p v.1) le (p + 4) v.2) m dataPtr xs
    else m
  | .int8s xs =>
    if ty = 6 then
      writeLoop 1 (fun m p (v : Int) => writeU8 m p (v % 256).toNat) m dataPtr xs
    else m
  | .int16s xs =>
    if ty = 8 then
      writeLoop 2 (fun m p (v : Int) => writeU16 m false p (v % 65536).toNat) m dataPtr xs
    else m
  | .int32s xs =>
    if ty = 9 then
      writeLoop 4 (fun m p (v : Int) => writeU32 m false p (v % 4294967296).toNat) m dataPtr xs
    else m
  | .srationals xs =>
    if ty = 10 then
      writeLoop 8
        (fun m p (v : Int × Int) =>
          writeU32 (writeU32 m le p (v.1 % 4294967296).toNat) le (p + 4) (v.2 % 4294967296).toNat)
        m dataPtr xs
    else m
  | .singles xs =>
    if ty = 11 then writeLoop 4 (fun m p v => writeU32 m false p v) m dataPtr xs else m
  | .doubles xs =>
    if ty = 12 then writeLoop 8 (fun m p v => writeU64 m false p v) m dataPtr xs else m
  | .subIfd _ => m

mutual

/-- The entry loop of `writeIfd` from src/tiff.js, threading `(memory,
front cursor, shared back cursor)`. A nested child IFD is encoded in
full at the back cursor (its count field written inline here, its
entries by the recursive call). The count field of a plain entry is
computed with the source's `entry.tag === ASCII` comparison, i.e. the
null terminator is counted only when the TAG number is 2, not when the
type is ASCII. -/
def writeIfdGo (le : Bool) :
    (Nat → Nat) → List IfdEntry → Nat → Nat → Option ((Nat → Nat) × Nat × Nat)
  | m, [], ptr, backPtr => some (m, ptr, backPtr)
  | m, (tag, ty, v) :: rest, ptr, backPtr =>
    let m := writeU16 m le ptr tag
    let m := writeU16 m le (ptr + 2) ty
    match v with
    | .subIfd _ =>
      if ty = 4 then do
        let (childFront, childBack) ← getEncodedIfdSizeV v
        let m := writeU32 m le (ptr + 4) 1
        let m := writeU32 m le (ptr + 8) backPtr
        -- Child IFD: its count and records go at the back cursor
        let res ← writeChildIfd le m v backPtr (backPtr + childFront)
        writeIfdGo le res rest (ptr + 12) (backPtr + childFront + childBack)
      else do
        -- Unreachable mismatch path, see `getEncodedIfdSize`.
        let m := writeU32 m le (ptr + 4) 0
        let _ ← getTypeSize ty
        writeIfdGo le m rest (ptr + 12) backPtr
    | _ => do
      let count := v.jsLength + if tag = 2 then 1 else 0
      let m := writeU32 m le (ptr + 4) count
      let ts ← getTypeSize ty
      let totalSize := count * ts
      if totalSize ≤ 4 then
        writeIfdGo le (writeEntryValue m le (ptr + 8) ty v) rest (ptr + 12) backPtr
      else
        let m := writeU32 m le (ptr + 8) backPtr
        writeIfdGo le (writeEntryValue m le backPtr ty v) rest (ptr + 12) (backPtr + totalSize)
termination_by structural _ l => l

/-- Mutual partner of `writeIfdGo`: the recursive `writeIfd(childIfd,
initialBackPtr)` call of src/tiff.js, writing the child's entry count
and records; yields the written memory. -/
def writeChildIfd (le : Bool) (m : Nat → Nat) :
    EntryValue → Nat → Nat → Option (Nat → Nat)
  | .subIfd sub, ptr, backPtr => do
    let res ← writeIfdGo le (writeU16 m le ptr sub.length) sub (ptr + 2) backPtr
    some res.1
  | _, _, _ => none
termination_by structural v => v

end

/-- `writeIfd` from src/tiff.js: write the entry count, then the entry
records. The next-IFD offset slot is left to the caller. -/
def writeIfd (le : Bool) (m : Nat → Nat) (entries : List IfdEntry) (ptr backPtr : Nat) :
    Option ((Nat → Nat) × Nat × Nat) :=
  writeIfdGo le (writeU16 m le ptr entries.length) entries (ptr + 2) backPtr

/-- Front/back size totals over all top-level IFDs. -/
def sumIfdSizes : List Ifd → Option (Nat × Nat)
  | [] => some (0, 0)
  | ifd :: rest => do
    let (f, b) ← getEncodedIfdSize ifd
    let (fs, bs) ← sumIfdSizes rest
    some (f + fs, b + bs)

/-- The top-level IFD loop of `encodeTiff`: after each IFD the next-IFD
offset is written as `frontPtr + 4`; the caller zeroes the last one. -/
def writeTopIfds (le : Bool) :
    (Nat → Nat) → List Ifd → Nat → Nat → Option ((Nat → Nat) × Nat)
  | m, [], frontPtr, _ => some (m, frontPtr)
  | m, ifd :: rest, frontPtr, backPtr => do
    let (m, fp, bp) ← writeIfd le m ifd frontPtr backPtr
    -- Next IFD offset is immediately after this one
    let m := writeU32 m le fp (fp + 4)
    writeTopIfds le m rest (fp + 4) bp

/-- `encodeTiff` from src/tiff.js: plan front/back sizes, allocate a
zero-filled buffer, write the byte-order mark and the fixed IFD0 offset
8, write every IFD, then zero the last next-IFD offset. -/
def encodeTiff (t : Tiff) : Option Buf := do
  let (fronts, backs) ← sumIfdSizes t.ifds
  let totalFront := 8 + fronts
  let le := t.littleEndian
  let m : Nat → Nat := fun _ => 0
  let m :=
    if le then writeU8 (writeU8 (writeU8 (writeU8 m 0 0x49) 1 0x49) 2 0x2A) 3 0x00
    else writeU8 (writeU8 (writeU8 (writeU8 m 0 0x4D) 1 0x4D) 2 0x00) 3 0x2A
  -- Offset to first IFD, always right after the header
  let m := writeU32 m le 4 8
  let (m, fp) ← writeTopIfds le m t.ifds 8 totalFront
  -- Last IFD offset is always 0
  let m := writeU32 m le (fp - 4) 0
  some ⟨totalFront + backs, m⟩

/-- The user-facing Exif record of src/exif.js: its two optional fields,
each a string modelled as a list of character codes. -/
structure ExifRecord where
  exifVersion : Option (List Nat)
  userComment : Option (List Nat)
deriving DecidableEq

/-- The empty Exif record `{}`. -/
def emptyExif : ExifRecord := ⟨none, none⟩

/-- `data.subarray(n)`: drop the first `n` bytes of a buffer. -/
def Buf.drop (b : Buf) (n : Nat) : Buf :=
  ⟨b.len - n, fun p => b.mem (p + n)⟩

/-- `Uint8Array.set(src, p)`: copy a whole buffer into memory at
offset `p`. -/
def blit (m : Nat → Nat) (p : Nat) (src : Buf) : Nat → Nat :=
  fun q => if p ≤ q ∧ q < p + src.len then src.mem (q - p) else m q

/-- The `readExifIfd` walk of src/exif.js `decodeExif`: project the known
tags of the Exif sub-IFD onto the record. Tag `0x9000` (UNDEFINED8 × 4)
becomes `ExifVersion`; tag `0x9286` (UNDEFINED8) becomes `UserComment`,
skipping its 8-byte encoding identifier. -/
def readExifIfd (entries : List IfdEntry) : ExifRecord :=
  entries.foldl
    (fun acc e =>
      let acc :=
        if e.1 = 0x9000 ∧ e.2.1 = 7 ∧ e.2.2.jsLength = 4 then
          { acc with exifVersion := some e.2.2.bytes }
        else acc
      if e.1 = 0x9286 ∧ e.2.1 = 7 then
        { acc with userComment := some (e.2.2.bytes.drop 8) }
      else acc)
    emptyExif

/-- `decodeExif` from src/exif.js: check the `size | "Exif" 0 0` frame,
decode the TIFF tail, locate the `0x8769` sub-IFD pointer in IFD0 and
decode the sub-IFD it addresses, then project the known tags. A missing
or malformed pointer entry yields the record collected so far (empty);
frame mismatches and decode failures throw (`none`). -/
def decodeExif (b : Buf) : Option ExifRecord := do
  let size ← readU16 b false 0
  if size ≠ b.len then none
  else if get8 b 2 = some 0x45 ∧ get8 b 3 = some 0x78 ∧ get8 b 4 = some 0x69 ∧
      get8 b 5 = some 0x66 ∧ get8 b 6 = some 0x00 ∧ get8 b 7 = some 0x00 then do
    let tiffData := b.drop 8
    let t ← decodeTiff tiffData
    match t.ifds with
    | [] => some emptyExif
    | ifd0 :: _ =>
      match ifd0.find? (fun e => e.1 == 0x8769) with
      | none => some emptyExif
      | some e =>
        if e.2.1 ≠ 4 ∨ e.2.2.jsLength ≠ 1 then some emptyExif
        else do
          let exifIfd ← decodeIfd tiffData (e.2.2.numAt 0) t.littleEndian
          some (readExifIfd exifIfd)
  else none

/-- The 8-byte `UserComment` encoding identifier `"ASCII\0\0\0"` written
by `encodeExif` (bytes 5..7 stay zero from the fresh array). -/
def asciiCommentHeader : List Nat := [0x41, 0x53, 0x43, 0x49, 0x49, 0, 0, 0]

/-- `encodeExif` from src/exif.js: build a little-endian TIFF whose IFD0
holds a single `0x8769` entry pointing at a sub-IFD with one entry per
present record field, and serialize it. `ExifVersion` must encode to
exactly 4 bytes (`InvalidInput` otherwise, modelled `none`); the
`UserComment` payload is the ASCII identifier followed by the char codes
(stored mod 256 by the `Uint8Array`). -/
def encodeExif (r : ExifRecord) : Option Buf := do
  let evEntries : List IfdEntry ←
    match r.exifVersion with
    | none => some []
    | some s =>
      if s.length ≠ 4 then none
      else some [(0x9000, 7, EntryValue.uint8s s)]
  let ucEntries : List IfdEntry :=
    match r.userComment with
    | none => []
    | some s => [(0x9286, 7, EntryValue.uint8s (asciiCommentHeader ++ s.map (· % 256)))]
  encodeTiff ⟨true, [[(0x8769, 4, EntryValue.subIfd (evEntries ++ ucEntries))]]⟩

/-- A JPEG segment of src/jpg.js: marker type byte and payload. -/
structure JpgSegment where
  type : Nat
  data : Buf

/-- A decoded JPEG: its ordered segment list. -/
structure Jpg where
  segments : List JpgSegment

/-- `decodeJpgExif` from src/exif.js: decode the Exif record carried by
the first APP1 (`0xE1`) segment, or the empty record when there is
none. -/
def decodeJpgExif (jpg : Jpg) : Option ExifRecord :=
  match jpg.segments.find? (fun s => s.type == 0xE1) with
  | none => some emptyExif
  | some seg => decodeExif seg.data

/-- Replace the data of the first APP1 segment (the in-place
`segment.data = exifData` mutation of `updateJpgExif`). -/
def replaceFirstApp1 : List JpgSegment → Buf → List JpgSegment
  | [], _ => []
  | s :: rest, d =>
    if s.type = 0xE1 then ⟨s.type, d⟩ :: rest else s :: replaceFirstApp1 rest d

/-- The framed Exif payload built by `updateJpgExif`: `exifSize | "Exif"
| 0x00 0x00 | TIFF bytes` in a fresh zero-filled array (the u16 size is
stored big-endian). -/
def exifFrame (encodedTiff : Buf) : Buf :=
  let exifSize := encodedTiff.len + 8
  let m : Nat → Nat := fun _ => 0
  let m := writeU16 m false 0 exifSize
  let m := writeU8 (writeU8 (writeU8 (writeU8 (writeU8 (writeU8 m 2 0x45)
    3 0x78) 4 0x69) 5 0x66) 6 0x00) 7 0x00
  ⟨exifSize, blit m 8 encodedTiff⟩

/-- `updateJpgExif` from src/exif.js: no-op without an APP1 segment;
otherwise frame the encoded Exif TIFF and store it as the segment's
data. -/
def updateJpgExif (jpg : Jpg) (r : ExifRecord) : Option Jpg :=
  match jpg.segments.find? (fun s => s.type == 0xE1) with
  | none => some jpg
  | some _ => do
    let encodedTiff ← encodeExif r
    some ⟨replaceFirstApp1 jpg.segments (exifFrame encodedTiff)⟩

/-- A PNG chunk of src/png.js: 4-character type (as char codes) and the
chunk data, without length, type or CRC. -/
structure PngChunk where
  type : List Nat
  data : List Nat
deriving DecidableEq

/-- A decoded PNG: its ordered chunk list. -/
structure Png where
  chunks : List PngChunk
deriving DecidableEq

/-- The 8-byte PNG signature. -/
def pngHeader : List Nat := [0x89, 0x50, 0x4E, 0x47, 0x0D, 0x0A, 0x1A, 0x0A]

/-- The chunk type `"tEXt"` as char codes. -/
def tEXtType : List Nat := [0x74, 0x45, 0x58, 0x74]

/-- Big-endian u32 read over a byte list (`DataView.getUint32(p, false)`
in src/png.js); out of range throws (`none`). -/
def readU32BEL (d : List Nat) (p : Nat) : Option Nat := do
  let a ← d.get? p
  let b ← d.get? (p + 1)
  let c ← d.get? (p + 2)
  let e ← d.get? (p + 3)
  some (((a * 256 + b) * 256 + c) * 256 + e)

/-- `parseChunk` from src/png.js: u32 length, 4 type bytes and the data
both read with clamping `subarray`, then the CRC word, which is read
(bounds-checked) but whose value is discarded without any check. Returns
the chunk and the cursor after it. -/
def parseChunk (d : List Nat) (p : Nat) : Option (PngChunk × Nat) := do
  let length ← readU32BEL d p
  let ty := (d.drop (p + 4)).take 4
  let chunkData := (d.drop (p + 8)).take length
  let _crc ← readU32BEL d (p + 8 + length)
  some (⟨ty, chunkData⟩, p + 12 + length)

/-- The `parseAllChunks` loop of `decodePng`: parse chunks while the
cursor is inside the buffer. Each iteration advances the cursor by at
least 12, so fuel `d.length + 1` is never exhausted. -/
def parseAllChunks (d : List Nat) : Nat → Nat → Option (List PngChunk)
  | _, 0 => none
  | p, fuel + 1 =>
    if p < d.length then do
      let (c, p') ← parseChunk d p
      let rest ← parseAllChunks d p' fuel
      some (c :: rest)
    else some []

/-- `decodePng` from src/png.js: check the 8-byte signature, then parse
the chunk stream. -/
def decodePng (d : List Nat) : Option Png :=
  if d.length < 8 then none
  else if d.take 8 = pngHeader then (parseAllChunks d 8 (d.length + 1)).map Png.mk
  else none

/-- Byte positions belonging to chunk CRC fields, collected by walking
the chunk structure exactly as `parseAllChunks` does: each chunk
contributes the 4 bytes after its data (clipped to the buffer when the
file ends inside the CRC field, where parsing stops). -/
def crcPositionsFrom (d : List Nat) : Nat → Nat → List Nat
  | _, 0 => []
  | p, fuel + 1 =>
    if p < d.length then
      match readU32BEL d p with
      | none => []
      | some length =>
        let s := p + 8 + length
        if s + 4 ≤ d.length then
          (List.range 4).map (s + ·) ++ crcPositionsFrom d (p + 12 + length) fuel
        else (List.range (d.length - s)).map (s + ·)
    else []

/-- All CRC byte positions of a PNG byte string. -/
def crcPositions (d : List Nat) : List Nat := crcPositionsFrom d 8 (d.length + 1)

/-- The key-match test of `findTextSection` in src/png.js: every key
char code must equal the corresponding data byte, and the byte after the
key must be the null separator (a missing byte is `undefined` and fails
the comparison). -/
def matchesKey : List Nat → List Nat → Bool
  | [], 0 :: _ => true
  | [], _ => false
  | _ :: _, [] => false
  | k :: ks, b :: bs => b = k && matchesKey ks bs

/-- The chunk predicate of `findTextSection`: a `tEXt` chunk whose data
starts with the key and its null separator. -/
def isTextChunkFor (key : List Nat) (c : PngChunk) : Bool :=
  c.type == tEXtType && matchesKey key c.data

/-- `findTextSection` from src/png.js: the first matching `tEXt`
chunk. -/
def findTextSection (png : Png) (key : List Nat) : Option PngChunk :=
  png.chunks.find? (isTextChunkFor key)

/-- `getText` from src/png.js: everything after the first null byte of
the matching chunk's data (`null` when no chunk matches). -/
def getText (png : Png) (key : List Nat) : Option (List Nat) :=
  (findTextSection png key).map fun c => (c.data.dropWhile (· ≠ 0)).drop 1

/-- The `tEXt` data built by `setText`: key bytes, the null separator
(left over from the zero-filled allocation), then the value bytes;
char codes are stored mod 256 by the `Uint8Array`. -/
def setTextData (key value : List Nat) : List Nat :=
  key.map (· % 256) ++ 0 :: value.map (· % 256)

/-- Replace the data of the first chunk matching the predicate (the
in-place `chunk.data = encoded` mutation of `setText`). -/
def replaceFirstChunk (p : PngChunk → Bool) (d : List Nat) : List PngChunk → List PngChunk
  | [] => []
  | c :: cs => if p c then ⟨c.type, d⟩ :: cs else c :: replaceFirstChunk p d cs

/-- `png.chunks.splice(1, 0, chunk)`: insert after the first chunk
(appends when the list is shorter). -/
def insertAtOne (c : PngChunk) : List PngChunk → List PngChunk
  | [] => [c]
  | h :: t => h :: c :: t

/-- `setText` from src/png.js: overwrite the data of the first matching
`tEXt` chunk, or insert a fresh chunk at index 1. -/
def setText (png : Png) (key value : List Nat) : Png :=
  let encoded := setTextData key value
  match findTextSection png key with
  | some _ => ⟨replaceFirstChunk (isTextChunkFor key) encoded png.chunks⟩
  | none => ⟨insertAtOne ⟨tEXtType, encoded⟩ png.chunks⟩

/-- Specification-side signed 32-bit interpretation, written from the
spec's words independently of the decoder: assemble the 4 wire bytes in
the given endianness and apply the two's-complement rule keyed on the
sign byte. Used to state what SRATIONAL components must mean. -/
def specI32 (b0 b1 b2 b3 : Nat) (le : Bool) : Int :=
  let signByte := if le then b3 else b0
  let n : Nat := if le then b0 + 256 * b1 + 65536 * b2 + 16777216 * b3
                 else b3 + 256 * b2 + 65536 * b1 + 16777216 * b0
  if signByte % 256 < 128 then (n : Int) else (n : Int) - 4294967296

/-- Bytes of a payload the decoder actually reads for `count` elements
of type `ty`: `step·(count−1)` plus the width of one element read. For
DOUBLE the element read is only 4 bytes wide (the `getFloat32` slip), so
the final 4 bytes of the nominal payload are never touched. -/
def neededPayloadBytes (ty count : Nat) : Nat :=
  match ty with
  | 1 | 6 | 7 => count
  | 3 | 8 => 2 * count
  | 4 | 9 | 11 => 4 * count
  | 5 | 10 => 8 * count
  | 12 => 8 * (count - 1) + 4
  | _ => 0

/-- The four little-endian bytes `setUint32` stores for a value. -/
def u32le (v : Nat) : List Nat :=
  [v % 4294967296 % 256, v % 4294967296 / 256 % 256,
   v % 4294967296 / 65536 % 256, v % 4294967296 / 16777216 % 256]

/-- Bytes 0–25 of every TIFF produced by `encodeExif`: header, IFD0
offset 8, one-entry IFD0 whose `0x8769` entry points at offset 26, and
the zeroed next-IFD offset. -/
def exifTiffPrefix : List Nat :=
  [0x49, 0x49, 0x2A, 0, 8, 0, 0, 0,
   1, 0,
   0x69, 0x87, 4, 0, 1, 0, 0, 0, 26, 0, 0, 0,
   0, 0, 0, 0]

/-- The encoded `ExifVersion` child record: tag `0x9000`, UNDEFINED8,
count 4, inline payload. -/
def evRecordBytes (s : List Nat) : List Nat :=
  [0, 0x90, 7, 0, 4, 0, 0, 0] ++ s.map (· % 256)

/-- The encoded `UserComment` child record: tag `0x9286`, UNDEFINED8,
count `n`, spilled payload at `off`. -/
def ucRecordBytes (n off : Nat) : List Nat :=
  [0x86, 0x92, 7, 0] ++ u32le n ++ u32le off

/-- Expected TIFF bytes of `encodeExif` for the empty record. -/
def c4bytesNone : List Nat := exifTiffPrefix ++ [0, 0] ++ [0, 0, 0, 0]

/-- Expected TIFF bytes of `encodeExif` with only `ExifVersion`. -/
def c4bytesEv (s : List Nat) : List Nat :=
  exifTiffPrefix ++ [1, 0] ++ evRecordBytes s ++ [0, 0, 0, 0]

/-- Expected TIFF bytes of `encodeExif` with only `UserComment` (its
payload spills to offset 44). -/
def c4bytesUc (u : List Nat) : List Nat :=
  exifTiffPrefix ++ [1, 0] ++ ucRecordBytes (8 + u.length) 44 ++ [0, 0, 0, 0] ++
    (asciiCommentHeader ++ u.map (· % 256))

/-- Expected TIFF bytes of `encodeExif` with both fields (the
`UserComment` payload spills to offset 56). -/
def c4bytesBoth (s u : List Nat) : List Nat :=
  exifTiffPrefix ++ [2, 0] ++ evRecordBytes s ++ ucRecordBytes (8 + u.length) 56 ++
    [0, 0, 0, 0] ++ (asciiCommentHeader ++ u.map (· % 256))

/-- Little-endian TIFF whose single IFD holds one inline ASCII entry,
tag `0x010E` (ImageDescription), count 3, value `"AB"` with its null
terminator: bytes 0–7 header, 8–9 entry count, 10–21 the entry record,
22–25 the zero next-IFD offset. -/
def c1buf : Buf := Buf.ofList
  [0x49, 0x49, 0x2A, 0x00, 8, 0, 0, 0,
   1, 0,
   0x0E, 0x01, 2, 0, 3, 0, 0, 0, 65, 66, 0, 0,
   0, 0, 0, 0]

/-- The `Tiff` that `decodeTiff` produces from `c1buf`. -/
def c1tiff : Tiff := ⟨true, [[(0x010E, 2, .asciiV [65, 66])]]⟩

/-- A `Tiff` with one ASCII entry, tag `0x013B` (Artist), value
`"ABCDE"`, used to read back the encoded count field. -/
def c3tiff : Tiff := ⟨true, [[(0x013B, 2, .asciiV [65, 66, 67, 68, 69])]]⟩

/-- Little-endian TIFF whose IFD0 holds a single Exif-pointer entry:
tag `0x8769`, type UINT32, count 1, offset 26; at offset 26 lies a
well-formed empty child IFD (entry count 0, next-IFD offset 0). -/
def c2buf : Buf := Buf.ofList
  [0x49, 0x49, 0x2A, 0x00, 8, 0, 0, 0,
   1, 0,
   0x69, 0x87, 4, 0, 1, 0, 0, 0, 26, 0, 0, 0,
   0, 0, 0, 0,
   0, 0, 0, 0, 0, 0]

/-- Little-endian TIFF with one spilled ASCII entry (count 6 > 4) whose
payload at offset 26 needs bytes 26–31, but the buffer ends at 28: the
final three payload bytes (including the null terminator) lie past the
end. -/
def c5buf : Buf := Buf.ofList
  [0x49, 0x49, 0x2A, 0x00, 8, 0, 0, 0,
   1, 0,
   0x0E, 0x01, 2, 0, 6, 0, 0, 0, 26, 0, 0, 0,
   0, 0, 0, 0,
   72, 73]

/-- Little-endian TIFF with one DOUBLE entry (tag 100, count 1) whose
8-byte payload at offset 26 is `00 00 00 00 01 02 03 04`. -/
def c6buf : Buf := Buf.ofList
  [0x49, 0x49, 0x2A, 0x00, 8, 0, 0, 0,
   1, 0,
   100, 0, 12, 0, 1, 0, 0, 0, 26, 0, 0, 0,
   0, 0, 0, 0,
   0, 0, 0, 0, 1, 2, 3, 4]

/-- A PNG that already carries two `tEXt` chunks keyed `"K"` (data
`K\0A`), plus an unrelated leading chunk. -/
def c9png : Png :=
  ⟨[⟨[73, 72, 68, 82], [1, 2, 3]⟩,
    ⟨tEXtType, [75, 0, 65]⟩,
    ⟨tEXtType, [75, 0, 65]⟩]⟩

/-- Claim C1: the TIFF decode/encode round trip fails on the code. The
`Tiff` decoded from `c1buf` carries an ASCII entry with tag `0x010E`;
because `writeIfd` compares `entry.tag` (not `entry.type`) against the
ASCII code 2, it writes count 2 instead of 3, and re-decoding truncates
the string `"AB"` to `"A"`. -/
theorem c1_roundtrip_fails :
    decodeTiff c1buf = some c1tiff ∧
    (encodeTiff c1tiff).bind decodeTiff = some ⟨true, [[(0x010E, 2, .asciiV [65])]]⟩ ∧
    EntryValue.asciiV [65] ≠ EntryValue.asciiV [65, 66] :=
  ⟨rfl, rfl, by simp⟩

/-- Claim C3: for an ASCII entry whose tag is not 2, `encodeTiff` writes
a count field equal to the string length (5), not length + 1 (6); the
claimed count 6 differs. The null terminator itself is still written
(byte 31 of the payload region is 0). -/
theorem c3_ascii_count_bug :
    (encodeTiff c3tiff).bind (fun b => readU32 b true 14) = some 5 ∧
    (encodeTiff c3tiff).bind (fun b => get8 b 31) = some 0 ∧
    (5 : Nat) ≠ 5 + 1 :=
  ⟨rfl, rfl, by decide⟩

/-- Claim C6: the DOUBLE branch of `readEntryValue` reads with the
32-bit float accessor, so the element decoded from `c6buf` is the
widening of the first 4 payload bytes (bit pattern 0), not the binary64
pattern of all 8 payload bytes (`0x0403020100000000`). -/
theorem c6_double_uses_f32_reader :
    decodeTiff c6buf = some ⟨true, [[(100, 12, .doubles [0])]]⟩ ∧
    readU64 c6buf true 26 = some 0x0403020100000000 ∧
    (0 : Nat) ≠ 0x0403020100000000 :=
  ⟨rfl, rfl, by decide⟩

/-- Claim C2, counterexample: decoding `c2buf` leaves the `0x8769`
entry's value as the raw offset vector `[26]`, not the `Ifd` decoded at
offset 26 (which is the empty IFD), contradicting the claim that the
decoder stores the child `Ifd` in the entry's value. -/
theorem c2_counterexample :
    decodeTiff c2buf = some ⟨true, [[(0x8769, 4, .uint32s [26])]]⟩ ∧
    decodeIfd c2buf 26 true = some [] ∧
    EntryValue.uint32s [26] ≠ EntryValue.subIfd [] :=
  ⟨rfl, rfl, by simp⟩

/-- Claim C5, counterexample: the spilled ASCII payload of `c5buf` needs
bytes 26–31 but the buffer ends at 28; `subarray` clamps, so the decode
succeeds with the truncated (partial) string `"HI"` instead of failing
with `MalformedData`. -/
theorem c5_counterexample :
    decodeTiff c5buf = some ⟨true, [[(0x010E, 2, .asciiV [72, 73])]]⟩ ∧
    c5buf.len < 26 + 6 :=
  ⟨rfl, by decide⟩

/-- Claim C9, counterexample: starting from a PNG that already has two
`tEXt` chunks keyed `"K"`, two `setText` calls update only the first,
so two chunks keyed `"K"` remain — not exactly one. -/
theorem c9_counterexample :
    ((setText (setText c9png [75] [66]) [75] [67]).chunks.countP
      (isTextChunkFor [75]) = 2) ∧ (2 : Nat) ≠ 1 :=
  ⟨rfl, by decide⟩

/-- Claim C8: on a JPEG without an APP1 (`0xE1`) segment,
`updateJpgExif` returns the JPEG completely unchanged and
`decodeJpgExif` returns the empty record. -/
theorem c8_no_app1_noop (jpg : Jpg) (r : ExifRecord)
    (h : ∀ s ∈ jpg.segments, s.type ≠ 0xE1) :
    updateJpgExif jpg r = some jpg ∧ decodeJpgExif jpg = some emptyExif := by
  have hf : jpg.segments.find? (fun s => s.type == 0xE1) = none := by
    rw [List.find?_eq_none]
    intro s hs
    simpa using h s hs
  constructor <;> simp [updateJpgExif, decodeJpgExif, hf]

/-- Witness for C8 at a one-segment JPEG (SOI only) and the empty
record. -/
theorem c8_witness :
    (∀ s ∈ (⟨[⟨0xD8, Buf.ofList []⟩]⟩ : Jpg).segments, s.type ≠ 0xE1) ∧
    (updateJpgExif ⟨[⟨0xD8, Buf.ofList []⟩]⟩ ⟨none, none⟩ =
        some ⟨[⟨0xD8, Buf.ofList []⟩]⟩ ∧
      decodeJpgExif ⟨[⟨0xD8, Buf.ofList []⟩]⟩ = some emptyExif) :=
  ⟨by decide, c8_no_app1_noop _ _ (by decide)⟩

/-- Claim C2, amended: the decoder leaves the raw offset in place. An
entry record whose wire fields are tag `0x8769`, type UINT32 and count 1
decodes to the UINT32 vector holding the offset word `v` unchanged — no
recursive decode happens inside `decodeTiff`; the Exif adapter later
passes that offset to `decodeIfd` itself. -/
theorem c2_raw_offset_kept (buf : Buf) (le : Bool) (ptr v : Nat)
    (htag : readU16 buf le ptr = some 0x8769)
    (hty : readU16 buf le (ptr + 2) = some 4)
    (hcount : readU32 buf le (ptr + 4) = some 1)
    (hval : readU32 buf le (ptr + 8) = some v) :
    readEntry buf le ptr = some ((0x8769, 4, .uint32s [v]), ptr + 12) := by
  simp [readEntry, htag, hty, hcount, hval, getTypeSize, readEntryValue, readLoop]

/-- Witness for the amended C2 at the `0x8769` entry of `c2buf` (record
at byte 10, offset word 26). -/
theorem c2_raw_offset_kept_witness :
    readU16 c2buf true 10 = some 0x8769 ∧
    readU16 c2buf true 12 = some 4 ∧
    readU32 c2buf true 14 = some 1 ∧
    readU32 c2buf true 18 = some 26 ∧
    readEntry c2buf true 10 = some ((0x8769, 4, .uint32s [26]), 22) :=
  ⟨rfl, rfl, rfl, rfl, c2_raw_offset_kept c2buf true 10 26 rfl rfl rfl rfl⟩

/-- `getUint8` fails past the end of the buffer. -/
theorem get8_oob (buf : Buf) (q : Nat) (h : buf.len < q + 1) : get8 buf q = none := by
  simp [get8]
  omega

/-- `getUint16` fails when its 2 bytes are not all inside the buffer. -/
theorem readU16_oob (buf : Buf) (le : Bool) (q : Nat) (h : buf.len < q + 2) :
    readU16 buf le q = none := by
  rcases Nat.lt_or_ge q buf.len with hq | hq
  · simp [readU16, get8, hq]
    omega
  · simp [readU16, get8, Nat.not_lt.mpr hq]

/-- `getUint32` fails when its 4 bytes are not all inside the buffer. -/
theorem readU32_oob (buf : Buf) (le : Bool) (q : Nat) (h : buf.len < q + 4) :
    readU32 buf le q = none := by
  have h3 : get8 buf (q + 3) = none := by
    simp [get8]
    omega
  cases h0 : get8 buf q with
  | none => simp [readU32, h0]
  | some a =>
    cases h1 : get8 buf (q + 1) with
    | none => simp [readU32, h0, h1]
    | some b =>
      cases h2 : get8 buf (q + 2) with
      | none => simp [readU32, h0, h1, h2]
      | some c => simp [readU32, h0, h1, h2, h3]

/-- The element loop fails as soon as the bytes of its last element read
stick out of the buffer: `count` elements at stride `step`, each read
touching `w` bytes. -/
theorem readLoop_oob {α : Type} (step w : Nat) (buf : Buf) (r1 : Nat → Option α)
    (hr : ∀ q, buf.len < q + w → r1 q = none) :
    ∀ count p, 0 < count → buf.len < p + step * (count - 1) + w →
      readLoop step r1 p count = none := by
  intro count
  induction count with
  | zero => intro p h0; omega
  | succ c ih =>
    intro p _ hoob
    cases c with
    | zero =>
      simp only [Nat.sub_self, Nat.mul_zero, Nat.zero_add] at hoob
      have : r1 p = none := hr p (by omega)
      simp [readLoop, this]
    | succ c' =>
      cases h1 : r1 p with
      | none => simp [readLoop, h1]
      | some x =>
        have hrest : readLoop step r1 (p + step) (c' + 1) = none := by
          apply ih (p + step) (Nat.succ_pos c')
          simp only [Nat.succ_sub_one] at hoob ⊢
          rw [Nat.mul_succ] at hoob
          omega
        have hun : readLoop step r1 p (c' + 1 + 1) =
            (r1 p).bind (fun x =>
              (readLoop step r1 (p + step) (c' + 1)).bind (fun rest => some (x :: rest))) := rfl
        rw [hun, h1, hrest]
        rfl

/-- Claim C5, amended: for every valid non-ASCII element type, a payload
whose actually-read bytes extend past the end of the buffer makes
`readEntryValue` — and with it the whole `decodeIfd` / `decodeTiff`
call — fail with no partial result. (ASCII payloads are clamped instead,
see the counterexample; and for DOUBLE the final 4 bytes of the nominal
`8·count` payload are never read, so only `8·count − 4` bytes must be in
range.) -/
theorem c5_truncated_payload_fails (buf : Buf) (le : Bool) (p ty count : Nat)
    (hty : ty = 1 ∨ ty = 3 ∨ ty = 4 ∨ ty = 5 ∨ ty = 6 ∨ ty = 7 ∨ ty = 8 ∨
      ty = 9 ∨ ty = 10 ∨ ty = 11 ∨ ty = 12)
    (hc : 0 < count)
    (hoob : buf.len < p + neededPayloadBytes ty count) :
    readEntryValue buf le p ty count = none := by
  have hu8 : ∀ q, buf.len < q + 1 → get8 buf q = none := fun q hq => get8_oob buf q hq
  rcases hty with h | h | h | h | h | h | h | h | h | h | h <;> subst h
  · -- UINT8
    have hl := readLoop_oob 1 1 buf _ hu8 count p hc (by
      simp only [neededPayloadBytes] at hoob
      omega)
    simp [readEntryValue, hl]
  · -- UINT16
    have hr : ∀ q, buf.len < q + 2 → readU16 buf le q = none :=
      fun q hq => readU16_oob buf le q hq
    have hl := readLoop_oob 2 2 buf _ hr count p hc (by
      simp only [neededPayloadBytes] at hoob
      omega)
    simp [readEntryValue, hl]
  · -- UINT32
    have hr : ∀ q, buf.len < q + 4 → readU32 buf le q = none :=
      fun q hq => readU32_oob buf le q hq
    have hl := readLoop_oob 4 4 buf _ hr count p hc (by
      simp only [neededPayloadBytes] at hoob
      omega)
    simp [readEntryValue, hl]
  · -- URATIONAL
    have hr : ∀ q, buf.len < q + 8 →
        (readU32 buf le q).bind
          (fun a => (readU32 buf le (q + 4)).bind (fun b => some (a, b))) = none := by
      intro q hq
      have h2 : readU32 buf le (q + 4) = none := readU32_oob buf le _ (by omega)
      cases ha : readU32 buf le q <;> simp [ha, h2]
    have hl := readLoop_oob 8 8 buf _ hr count p hc (by
      simp only [neededPayloadBytes] at hoob
      omega)
    simp [readEntryValue, hl]
  · -- INT8
    have hr : ∀ q, buf.len < q + 1 → readI8 buf q = none := by
      intro q hq
      simp [readI8, get8_oob buf q hq]
    have hl := readLoop_oob 1 1 buf _ hr count p hc (by
      simp only [neededPayloadBytes] at hoob
      omega)
    simp [readEntryValue, hl]
  · -- UNDEFINED8
    have hl := readLoop_oob 1 1 buf _ hu8 count p hc (by
      simp only [neededPayloadBytes] at hoob
      omega)
    simp [readEntryValue, hl]
  · -- INT16
    have hr : ∀ q, buf.len < q + 2 → readI16 buf le q = none := by
      intro q hq
      simp [readI16, readU16_oob buf le q hq]
    have hl := readLoop_oob 2 2 buf _ hr count p hc (by
      simp only [neededPayloadBytes] at hoob
      omega)
    simp [readEntryValue, hl]
  · -- INT32
    have hr : ∀ q, buf.len < q + 4 → readI32 buf le q = none := by
      intro q hq
      simp [readI32, readU32_oob buf le q hq]
    have hl := readLoop_oob 4 4 buf _ hr count p hc (by
      simp only [neededPayloadBytes] at hoob
      omega)
    simp [readEntryValue, hl]
  · -- SRATIONAL
    have hr : ∀ q, buf.len < q + 8 →
        (readU32 buf le q).bind
          (fun a => (readU32 buf le (q + 4)).bind (fun b => some (toI32 a, toI32 b))) = none := by
      intro q hq
      have h2 : readU32 buf le (q + 4) = none := readU32_oob buf le _ (by omega)
      cases ha : readU32 buf le q <;> simp [ha, h2]
    have hl := readLoop_oob 8 8 buf _ hr count p hc (by
      simp only [neededPayloadBytes] at hoob
      omega)
    simp [readEntryValue, hl]
  · -- SINGLE
    have hr : ∀ q, buf.len < q + 4 → readU32 buf le q = none :=
      fun q hq => readU32_oob buf le q hq
    have hl := readLoop_oob 4 4 buf _ hr count p hc (by
      simp only [neededPayloadBytes] at hoob
      omega)
    simp [readEntryValue, hl]
  · -- DOUBLE: stride 8 but only 4 bytes actually read per element
    have hr : ∀ q, buf.len < q + 4 → (readU32 buf le q).map f32BitsToF64Bits = none := by
      intro q hq
      simp [readU32_oob buf le q hq]
    have hl := readLoop_oob 8 4 buf _ hr count p hc (by
      simp only [neededPayloadBytes] at hoob
      omega)
    simp [readEntryValue, hl]

/-- A successful `getUint32` determines the four bytes it read. -/
theorem readU32_eq (buf : Buf) (le : Bool) (q a : Nat)
    (h : readU32 buf le q = some a) :
    q + 3 < buf.len ∧
      a = (if le then
            buf.mem q + 256 * buf.mem (q + 1) + 65536 * buf.mem (q + 2) +
              16777216 * buf.mem (q + 3)
          else
            buf.mem (q + 3) + 256 * buf.mem (q + 2) + 65536 * buf.mem (q + 1) +
              16777216 * buf.mem q) := by
  rcases Nat.lt_or_ge (q + 3) buf.len with hin | hout
  · have hv : readU32 buf le q =
        some (if le then
            buf.mem q + 256 * buf.mem (q + 1) + 65536 * buf.mem (q + 2) +
              16777216 * buf.mem (q + 3)
          else
            buf.mem (q + 3) + 256 * buf.mem (q + 2) + 65536 * buf.mem (q + 1) +
              16777216 * buf.mem q) := by
      have h0 : q < buf.len := by omega
      have h1 : q + 1 < buf.len := by omega
      have h2 : q + 2 < buf.len := by omega
      simp [readU32, get8, h0, h1, h2, hin]
    rw [hv] at h
    exact ⟨hin, (Option.some.inj h).symm⟩
  · rw [readU32_oob buf le q (by omega)] at h
    cases h

/-- The `Int32Array` coercion of an assembled in-range u32 equals the
specification-side two's-complement reading of its four bytes. -/
theorem toI32_eq_specI32 (b0 b1 b2 b3 : Nat) (le : Bool)
    (h0 : b0 < 256) (h1 : b1 < 256) (h2 : b2 < 256) (h3 : b3 < 256) :
    toI32 (if le then b0 + 256 * b1 + 65536 * b2 + 16777216 * b3
           else b3 + 256 * b2 + 65536 * b1 + 16777216 * b0) =
      specI32 b0 b1 b2 b3 le := by
  cases le <;>
  · simp only [toI32, specI32, Bool.false_eq_true, if_false, if_true]
    have hmod : ∀ n : Nat, n < 4294967296 → n % 4294967296 = n := fun n hn => Nat.mod_eq_of_lt hn
    rw [hmod _ (by omega)]
    split_ifs with ha hb hb <;> first
    | rfl
    | omega

/-- The SRATIONAL element loop yields exactly the spec-side signed
pairs: element `i` is the two's-complement reading of the wire bytes at
`p + 8·i` and `p + 8·i + 4`. -/
theorem srationalLoop_spec (buf : Buf) (le : Bool)
    (hb : ∀ q, buf.mem q < 256) :
    ∀ count p l,
      readLoop 8 (fun q =>
        (readU32 buf le q).bind
          (fun a => (readU32 buf le (q + 4)).bind
            (fun b => some (toI32 a, toI32 b)))) p count = some l →
      l.length = count ∧
      ∀ i, i < count →
        l.get? i = some
          (specI32 (buf.mem (p + 8 * i)) (buf.mem (p + 8 * i + 1))
            (buf.mem (p + 8 * i + 2)) (buf.mem (p + 8 * i + 3)) le,
           specI32 (buf.mem (p + 8 * i + 4)) (buf.mem (p + 8 * i + 5))
            (buf.mem (p + 8 * i + 6)) (buf.mem (p + 8 * i + 7)) le) := by
  intro count
  induction count with
  | zero =>
    intro p l h
    simp [readLoop] at h
    subst h
    exact ⟨rfl, fun i hi => absurd hi (by omega)⟩
  | succ c ih =>
    intro p l h
    have hun : readLoop 8 (fun q =>
        (readU32 buf le q).bind
          (fun a => (readU32 buf le (q + 4)).bind
            (fun b => some (toI32 a, toI32 b)))) p (c + 1) =
        ((readU32 buf le p).bind
          (fun a => (readU32 buf le (p + 4)).bind
            (fun b => some (toI32 a, toI32 b)))).bind (fun x =>
          (readLoop 8 (fun q =>
            (readU32 buf le q).bind
              (fun a => (readU32 buf le (q + 4)).bind
                (fun b => some (toI32 a, toI32 b)))) (p + 8) c).bind
            (fun rest => some (x :: rest))) := rfl
    rw [hun] at h
    cases ha : readU32 buf le p with
    | none => rw [ha] at h; cases h
    | some a =>
      cases hb4 : readU32 buf le (p + 4) with
      | none => rw [ha, hb4] at h; cases h
      | some b =>
        rw [ha, hb4] at h
        cases hrest : readLoop 8 (fun q =>
            (readU32 buf le q).bind
              (fun a => (readU32 buf le (q + 4)).bind
                (fun b => some (toI32 a, toI32 b)))) (p + 8) c with
        | none => rw [hrest] at h; cases h
        | some rest =>
          rw [hrest] at h
          simp only [Option.some_bind, Option.some.injEq] at h
          subst h
          obtain ⟨hrl, hri⟩ := ih (p + 8) rest hrest
          refine ⟨by simp [hrl], ?_⟩
          intro i hi
          cases i with
          | zero =>
            obtain ⟨_, hav⟩ := readU32_eq buf le p a ha
            obtain ⟨_, hbv⟩ := readU32_eq buf le (p + 4) b hb4
            simp only [List.get?_cons_zero, Option.some.injEq, Nat.mul_zero, Nat.add_zero]
            rw [hav, hbv, toI32_eq_specI32 _ _ _ _ le (hb _) (hb _) (hb _) (hb _),
              toI32_eq_specI32 _ _ _ _ le (hb _) (hb _) (hb _) (hb _)]
          | succ j =>
            have := hri j (by omega)
            simpa [List.get?_cons_succ, Nat.mul_succ,
              show ∀ k : Nat, p + 8 + 8 * j + k = p + (8 * j + 8) + k from fun k => by omega,
              show p + 8 + 8 * j = p + (8 * j + 8) from by omega] using this

/-- Claim C7: every SRATIONAL component the decoder returns is the
signed two's-complement 32-bit interpretation of its 4 wire bytes
(negative numerators and denominators survive): the unsigned `getUint32`
read is reinterpreted by the `Int32Array` slot. -/
theorem c7_srational_signed (buf : Buf) (le : Bool) (p count : Nat)
    (v : EntryValue) (hbytes : ∀ q, buf.mem q < 256)
    (h : readEntryValue buf le p 10 count = some v) :
    ∃ l, v = .srationals l ∧ l.length = count ∧
      ∀ i, i < count →
        l.get? i = some
          (specI32 (buf.mem (p + 8 * i)) (buf.mem (p + 8 * i + 1))
            (buf.mem (p + 8 * i + 2)) (buf.mem (p + 8 * i + 3)) le,
           specI32 (buf.mem (p + 8 * i + 4)) (buf.mem (p + 8 * i + 5))
            (buf.mem (p + 8 * i + 6)) (buf.mem (p + 8 * i + 7)) le) := by
  simp only [readEntryValue, Option.bind_eq_bind] at h
  cases hl : readLoop 8 (fun q =>
      (readU32 buf le q).bind
        (fun a => (readU32 buf le (q + 4)).bind
          (fun b => some (toI32 a, toI32 b)))) p count with
  | none => rw [hl] at h; cases h
  | some l =>
    rw [hl] at h
    have hv : some (EntryValue.srationals l) = some v := h
    obtain rfl := Option.some.inj hv
    obtain ⟨h1, h2⟩ := srationalLoop_spec buf le hbytes count p l hl
    exact ⟨l, rfl, h1, h2⟩

/-- Witness for C7: decoding two SRATIONAL pairs `(-1, 2)` and
`(3, -4)` from a little-endian wire image. -/
theorem c7_srational_signed_witness :
    (∀ q, (Buf.ofList
      [255, 255, 255, 255, 2, 0, 0, 0, 3, 0, 0, 0, 252, 255, 255, 255]).mem q < 256) ∧
    readEntryValue (Buf.ofList
      [255, 255, 255, 255, 2, 0, 0, 0, 3, 0, 0, 0, 252, 255, 255, 255]) true 0 10 2 =
      some (.srationals [(-1, 2), (3, -4)]) ∧
    (∃ l, EntryValue.srationals [(-1, 2), (3, -4)] = .srationals l ∧ l.length = 2 ∧
      ∀ i, i < 2 →
        l.get? i = some
          (specI32 ((Buf.ofList
              [255, 255, 255, 255, 2, 0, 0, 0, 3, 0, 0, 0, 252, 255, 255, 255]).mem (0 + 8 * i))
            ((Buf.ofList
              [255, 255, 255, 255, 2, 0, 0, 0, 3, 0, 0, 0, 252, 255, 255, 255]).mem (0 + 8 * i + 1))
            ((Buf.ofList
              [255, 255, 255, 255, 2, 0, 0, 0, 3, 0, 0, 0, 252, 255, 255, 255]).mem (0 + 8 * i + 2))
            ((Buf.ofList
              [255, 255, 255, 255, 2, 0, 0, 0, 3, 0, 0, 0, 252, 255, 255, 255]).mem (0 + 8 * i + 3))
            true,
           specI32 ((Buf.ofList
              [255, 255, 255, 255, 2, 0, 0, 0, 3, 0, 0, 0, 252, 255, 255, 255]).mem (0 + 8 * i + 4))
            ((Buf.ofList
              [255, 255, 255, 255, 2, 0, 0, 0, 3, 0, 0, 0, 252, 255, 255, 255]).mem (0 + 8 * i + 5))
            ((Buf.ofList
              [255, 255, 255, 255, 2, 0, 0, 0, 3, 0, 0, 0, 252, 255, 255, 255]).mem (0 + 8 * i + 6))
            ((Buf.ofList
              [255, 255, 255, 255, 2, 0, 0, 0, 3, 0, 0, 0, 252, 255, 255, 255]).mem (0 + 8 * i + 7))
            true)) :=
  ⟨fun q => Nat.mod_lt _ (by norm_num), rfl,
    c7_srational_signed _ true 0 2 _ (fun q => Nat.mod_lt _ (by norm_num)) rfl⟩

/-- A key always matches the data that `setText` builds for it. -/
theorem matchesKey_append (key v : List Nat) :
    matchesKey key (key ++ 0 :: v) = true := by
  induction key with
  | nil => simp [matchesKey]
  | cons k ks ih => simp [matchesKey, ih]

/-- Char codes below 256 are unchanged by the `Uint8Array` store. -/
theorem map_mod256_eq (l : List Nat) (h : ∀ c ∈ l, c < 256) :
    l.map (· % 256) = l := by
  induction l with
  | nil => rfl
  | cons a t ih =>
    have ha : a < 256 := h a (List.mem_cons_self a t)
    simp [Nat.mod_eq_of_lt ha, ih fun c hc => h c (List.mem_cons_of_mem a hc)]

/-- `getText`'s extraction recovers the value from `setText`'s data when
the key has no null char codes. -/
theorem extract_setTextData (key v : List Nat) (hkey : ∀ c ∈ key, 0 < c ∧ c < 256) :
    ((setTextData key v).dropWhile (· ≠ 0)).drop 1 = v.map (· % 256) := by
  unfold setTextData
  induction key with
  | nil => simp [List.dropWhile]
  | cons k ks ih =>
    have hk := hkey k (List.mem_cons_self k ks)
    have hk0 : k % 256 ≠ 0 := by
      rw [Nat.mod_eq_of_lt hk.2]
      omega
    simp only [List.map_cons, List.cons_append, List.dropWhile_cons]
    rw [if_pos (by simpa using hk0)]
    exact ih fun c hc => hkey c (List.mem_cons_of_mem k hc)

/-- The chunk `setText` writes satisfies its own search predicate. -/
theorem isTextChunkFor_setChunk (key v : List Nat) (hkey : ∀ c ∈ key, 0 < c ∧ c < 256) :
    isTextChunkFor key ⟨tEXtType, setTextData key v⟩ = true := by
  have hm : key.map (· % 256) = key := map_mod256_eq key fun c hc => (hkey c hc).2
  simp [isTextChunkFor, setTextData, hm, matchesKey_append]

/-- Replacing the data of the first matching chunk: afterwards exactly
one chunk matches, the first match is the rewritten chunk, and
non-matching chunks are untouched. -/
theorem replaceFirst_spec (key d : List Nat) (hmatch : matchesKey key d = true) :
    ∀ l : List PngChunk, l.countP (isTextChunkFor key) ≤ 1 →
      (l.find? (isTextChunkFor key)).isSome →
      (replaceFirstChunk (isTextChunkFor key) d l).countP (isTextChunkFor key) = 1 ∧
      (replaceFirstChunk (isTextChunkFor key) d l).filter
          (fun c => !(isTextChunkFor key c)) =
        l.filter (fun c => !(isTextChunkFor key c)) ∧
      (replaceFirstChunk (isTextChunkFor key) d l).find? (isTextChunkFor key) =
        some ⟨tEXtType, d⟩ := by
  intro l
  induction l with
  | nil => intro _ hs; simp [List.find?] at hs
  | cons c cs ih =>
    intro hcount hsome
    cases hp : isTextChunkFor key c with
    | true =>
      have htype : c.type = tEXtType := by
        have := hp
        unfold isTextChunkFor at this
        exact eq_of_beq (Bool.and_elim_left this)
      have hrep : isTextChunkFor key ⟨tEXtType, d⟩ = true := by
        simp [isTextChunkFor, hmatch]
      have hcs : cs.countP (isTextChunkFor key) = 0 := by
        rw [List.countP_cons_of_pos _ _ hp] at hcount
        omega
      refine ⟨?_, ?_, ?_⟩
      · simp [replaceFirstChunk, hp, htype, List.countP_cons_of_pos _ _ hrep, hcs]
      · simp [replaceFirstChunk, hp, htype, List.filter_cons, hrep]
      · simp [replaceFirstChunk, hp, htype, List.find?_cons, hrep]
    | false =>
      have hsome' : (cs.find? (isTextChunkFor key)).isSome := by
        rw [List.find?_cons, hp] at hsome
        exact hsome
      have hcount' : cs.countP (isTextChunkFor key) ≤ 1 := by
        rw [List.countP_cons, hp] at hcount
        simpa using hcount
      obtain ⟨ih1, ih2, ih3⟩ := ih hcount' hsome'
      refine ⟨?_, ?_, ?_⟩
      · simp [replaceFirstChunk, hp, List.countP_cons, ih1]
      · simp [replaceFirstChunk, hp, List.filter_cons, ih2]
      · simp [replaceFirstChunk, hp, List.find?_cons, ih3]

/-- Inserting a matching chunk at index 1 into a list with no matching
chunk: afterwards exactly one chunk matches, it is the inserted chunk,
and the other chunks are untouched. -/
theorem insertAtOne_spec (key : List Nat) (new : PngChunk)
    (hnew : isTextChunkFor key new = true) :
    ∀ l : List PngChunk, (∀ c ∈ l, ¬ isTextChunkFor key c = true) →
      (insertAtOne new l).countP (isTextChunkFor key) = 1 ∧
      (insertAtOne new l).filter (fun c => !(isTextChunkFor key c)) =
        l.filter (fun c => !(isTextChunkFor key c)) ∧
      (insertAtOne new l).find? (isTextChunkFor key) = some new := by
  intro l hall
  cases l with
  | nil =>
    refine ⟨?_, ?_, ?_⟩
    · simp [insertAtOne, List.countP_cons_of_pos _ _ hnew]
    · simp [insertAtOne, List.filter_cons, hnew]
    · simp [insertAtOne, List.find?, hnew]
  | cons h t =>
    have hh : ¬ isTextChunkFor key h = true := hall h (List.mem_cons_self h t)
    have ht : t.countP (isTextChunkFor key) = 0 :=
      List.countP_eq_zero.mpr fun x hx => hall x (List.mem_cons_of_mem h hx)
    refine ⟨?_, ?_, ?_⟩
    · simp [insertAtOne, List.countP_cons_of_neg _ _ hh,
        List.countP_cons_of_pos _ _ hnew, ht]
    · simp [insertAtOne, List.filter_cons, hnew, hh]
    · have hhf : isTextChunkFor key h = false := by
        cases hx : isTextChunkFor key h
        · rfl
        · exact absurd hx hh
      simp [insertAtOne, List.find?_cons, hnew, hhf]

/-- One `setText` call on a PNG with at most one matching chunk:
afterwards exactly one chunk matches the key, the first match carries
the freshly encoded data, and all non-matching chunks are untouched. -/
theorem setText_spec (png : Png) (key value : List Nat)
    (hkey : ∀ c ∈ key, 0 < c ∧ c < 256)
    (hcount : png.chunks.countP (isTextChunkFor key) ≤ 1) :
    (setText png key value).chunks.countP (isTextChunkFor key) = 1 ∧
    (setText png key value).chunks.filter (fun c => !(isTextChunkFor key c)) =
      png.chunks.filter (fun c => !(isTextChunkFor key c)) ∧
    (setText png key value).chunks.find? (isTextChunkFor key) =
      some ⟨tEXtType, setTextData key value⟩ := by
  have hm : key.map (· % 256) = key := map_mod256_eq key fun c hc => (hkey c hc).2
  have hmatch : matchesKey key (setTextData key value) = true := by
    simpa [setTextData, hm] using matchesKey_append key (value.map (· % 256))
  cases hfind : findTextSection png key with
  | some c =>
    have hsome : (png.chunks.find? (isTextChunkFor key)).isSome := by
      simp [findTextSection] at hfind
      simp [hfind]
    obtain ⟨h1, h2, h3⟩ := replaceFirst_spec key (setTextData key value) hmatch
      png.chunks hcount hsome
    exact ⟨by simpa [setText, hfind] using h1, by simpa [setText, hfind] using h2,
      by simpa [setText, hfind] using h3⟩
  | none =>
    have hall : ∀ c ∈ png.chunks, ¬ isTextChunkFor key c = true := by
      intro c hc
      have := List.find?_eq_none.mp (by simpa [findTextSection] using hfind) c hc
      simpa using this
    obtain ⟨h1, h2, h3⟩ := insertAtOne_spec key ⟨tEXtType, setTextData key value⟩
      (isTextChunkFor_setChunk key value hkey) png.chunks hall
    exact ⟨by simpa [setText, hfind] using h1, by simpa [setText, hfind] using h2,
      by simpa [setText, hfind] using h3⟩

/-- Claim C9, amended: on a PNG with at most one `tEXt` chunk keyed `k`
(the counterexample shows duplicates defeat the claim), after
`set_text(png, k, v1)` then `set_text(png, k, v2)` there is exactly one
`tEXt` chunk keyed `k`, it carries `k | 0 | v2`, `get_text` returns
`v2`, and every chunk not keyed `k` is byte-for-byte unchanged. -/
theorem c9_insert_or_replace (png : Png) (key v1 v2 : List Nat)
    (hkey : ∀ c ∈ key, 0 < c ∧ c < 256)
    (hv2 : ∀ c ∈ v2, c < 256)
    (hcount : png.chunks.countP (isTextChunkFor key) ≤ 1) :
    (setText (setText png key v1) key v2).chunks.countP (isTextChunkFor key) = 1 ∧
    findTextSection (setText (setText png key v1) key v2) key =
      some ⟨tEXtType, setTextData key v2⟩ ∧
    getText (setText (setText png key v1) key v2) key = some v2 ∧
    (setText (setText png key v1) key v2).chunks.filter
        (fun c => !(isTextChunkFor key c)) =
      png.chunks.filter (fun c => !(isTextChunkFor key c)) := by
  obtain ⟨a1, a2, a3⟩ := setText_spec png key v1 hkey hcount
  obtain ⟨b1, b2, b3⟩ := setText_spec (setText png key v1) key v2 hkey (by omega)
  refine ⟨b1, b3, ?_, by rw [b2, a2]⟩
  unfold getText
  rw [show findTextSection (setText (setText png key v1) key v2) key =
    some ⟨tEXtType, setTextData key v2⟩ from b3]
  simp only [Option.map_some']
  rw [extract_setTextData key v2 hkey, map_mod256_eq v2 hv2]

/-- Witness for the amended C9 on an empty PNG, key `"K"`, values
`"A"` then `"B"`. -/
theorem c9_insert_or_replace_witness :
    (∀ c ∈ [75], 0 < c ∧ c < 256) ∧ (∀ c ∈ [66], c < 256) ∧
    (Png.mk []).chunks.countP (isTextChunkFor [75]) ≤ 1 ∧
    ((setText (setText ⟨[]⟩ [75] [65]) [75] [66]).chunks.countP
        (isTextChunkFor [75]) = 1 ∧
      findTextSection (setText (setText ⟨[]⟩ [75] [65]) [75] [66]) [75] =
        some ⟨tEXtType, setTextData [75] [66]⟩ ∧
      getText (setText (setText ⟨[]⟩ [75] [65]) [75] [66]) [75] = some [66] ∧
      (setText (setText ⟨[]⟩ [75] [65]) [75] [66]).chunks.filter
          (fun c => !(isTextChunkFor [75] c)) =
        (Png.mk []).chunks.filter (fun c => !(isTextChunkFor [75] c))) :=
  ⟨by decide, by decide, by decide,
    c9_insert_or_replace ⟨[]⟩ [75] [65] [66] (by decide) (by decide) (by decide)⟩

/-- Every CRC position sits at least 8 bytes past the walk cursor. -/
theorem crcPositionsFrom_lb (d : List Nat) :
    ∀ fuel p x, x ∈ crcPositionsFrom d p fuel → p + 8 ≤ x := by
  intro fuel
  induction fuel with
  | zero => intro p x hx; simp [crcPositionsFrom] at hx
  | succ f ih =>
    intro p x hx
    unfold crcPositionsFrom at hx
    by_cases hp : p < d.length
    · rw [if_pos hp] at hx
      cases hr : readU32BEL d p with
      | none => simp only [hr] at hx; simp at hx
      | some len' =>
        simp only [hr] at hx
        by_cases hcrc : p + 8 + len' + 4 ≤ d.length
        · rw [if_pos hcrc] at hx
          rcases List.mem_append.mp hx with hx | hx
          · obtain ⟨i, hi, rfl⟩ := List.mem_map.mp hx
            omega
          · have := ih (p + 12 + len') x hx
            omega
        · rw [if_neg hcrc] at hx
          obtain ⟨i, hi, rfl⟩ := List.mem_map.mp hx
          omega
    · rw [if_neg hp] at hx
      simp at hx

/-- Big-endian u32 list reads agree on byte-wise agreeing regions. -/
theorem readU32BEL_congr (d1 d2 : List Nat) (p : Nat)
    (h : ∀ i, p ≤ i → i < p + 4 → d1.get? i = d2.get? i) :
    readU32BEL d1 p = readU32BEL d2 p := by
  unfold readU32BEL
  rw [h p (Nat.le_refl p) (by omega), h (p + 1) (by omega) (by omega),
    h (p + 2) (by omega) (by omega), h (p + 3) (by omega) (by omega)]

/-- `subarray`-style segments agree on byte-wise agreeing regions. -/
theorem segment_congr (d1 d2 : List Nat) (a n : Nat)
    (h : ∀ i, a ≤ i → i < a + n → d1.get? i = d2.get? i) :
    (d1.drop a).take n = (d2.drop a).take n := by
  rw [List.ext_get?_iff]
  intro i
  rw [List.get?_take_eq_if, List.get?_take_eq_if, List.get?_drop, List.get?_drop]
  split
  · exact h (a + i) (by omega) (by omega)
  · rfl

/-- A big-endian u32 list read fails exactly when its last byte is past
the end. -/
theorem readU32BEL_eq_none_iff (d : List Nat) (p : Nat) :
    readU32BEL d p = none ↔ d.length ≤ p + 3 := by
  unfold readU32BEL
  cases h0 : d.get? p with
  | none =>
    have := List.get?_eq_none.mp h0
    simp [h0]
    omega
  | some a =>
    cases h1 : d.get? (p + 1) with
    | none =>
      have := List.get?_eq_none.mp h1
      simp [h0, h1]
      omega
    | some b =>
      cases h2 : d.get? (p + 2) with
      | none =>
        have := List.get?_eq_none.mp h2
        simp [h0, h1, h2]
        omega
      | some c =>
        cases h3 : d.get? (p + 3) with
        | none =>
          have := List.get?_eq_none.mp h3
          simp [h0, h1, h2, h3]
          omega
        | some e =>
          have hlt : p + 3 < d.length := by
            by_contra hh
            rw [List.get?_eq_none.mpr (by omega)] at h3
            cases h3
          simp [h0, h1, h2, h3]
          omega

/-- The chunk walk depends only on bytes outside CRC fields: two
buffers of equal length that agree outside the CRC positions of the
first parse to the same chunk list (CRC values are read but
discarded). -/
theorem parseAllChunks_crc_congr (d1 d2 : List Nat) (hlen : d1.length = d2.length) :
    ∀ fuel p,
      (∀ i, p ≤ i → i ∉ crcPositionsFrom d1 p fuel → d1.get? i = d2.get? i) →
      parseAllChunks d1 p fuel = parseAllChunks d2 p fuel := by
  intro fuel
  induction fuel with
  | zero => intro p _; rfl
  | succ f ih =>
    intro p hagree
    by_cases hp : p < d1.length
    · have hp2 : p < d2.length := hlen ▸ hp
      have hP : crcPositionsFrom d1 p (f + 1) = crcPositionsFrom d1 p (f + 1) := rfl
      have hag8 : ∀ i, p ≤ i → i < p + 8 → d1.get? i = d2.get? i := by
        intro i h1 h2
        refine hagree i h1 (fun hx => ?_)
        have := crcPositionsFrom_lb d1 (f + 1) p i hx
        omega
      have hlenf : readU32BEL d1 p = readU32BEL d2 p :=
        readU32BEL_congr d1 d2 p (fun i h1 h2 => hag8 i h1 (by omega))
      cases hr : readU32BEL d1 p with
      | none =>
        have hr2 : readU32BEL d2 p = none := by rw [← hlenf]; exact hr
        simp [parseAllChunks, parseChunk, hp, hp2, hr, hr2]
      | some len' =>
        have hr2 : readU32BEL d2 p = some len' := by rw [← hlenf]; exact hr
        have hPdef : crcPositionsFrom d1 p (f + 1) =
            (if p + 8 + len' + 4 ≤ d1.length then
              (List.range 4).map ((p + 8 + len') + ·) ++
                crcPositionsFrom d1 (p + 12 + len') f
            else (List.range (d1.length - (p + 8 + len'))).map ((p + 8 + len') + ·)) := by
          conv_lhs => rw [crcPositionsFrom]
          rw [if_pos hp]
          simp only [hr]
        by_cases hcrc : p + 8 + len' + 4 ≤ d1.length
        · rw [if_pos hcrc] at hPdef
          have hagBody : ∀ i, p ≤ i → i < p + 8 + len' → d1.get? i = d2.get? i := by
            intro i h1 h2
            refine hagree i h1 (fun hx => ?_)
            rw [hPdef] at hx
            rcases List.mem_append.mp hx with hx | hx
            · obtain ⟨j, hj, rfl⟩ := List.mem_map.mp hx
              have := List.mem_range.mp hj
              omega
            · have := crcPositionsFrom_lb d1 f (p + 12 + len') i hx
              omega
          have hty : (d1.drop (p + 4)).take 4 = (d2.drop (p + 4)).take 4 :=
            segment_congr d1 d2 (p + 4) 4 (fun i h1 h2 => hagBody i (by omega) (by omega))
          have hdata : (d1.drop (p + 8)).take len' = (d2.drop (p + 8)).take len' :=
            segment_congr d1 d2 (p + 8) len' (fun i h1 h2 => hagBody i (by omega) (by omega))
          cases hc1 : readU32BEL d1 (p + 8 + len') with
          | none =>
            have := (readU32BEL_eq_none_iff d1 (p + 8 + len')).mp hc1
            omega
          | some v1 =>
            cases hc2 : readU32BEL d2 (p + 8 + len') with
            | none =>
              have := (readU32BEL_eq_none_iff d2 (p + 8 + len')).mp hc2
              omega
            | some v2 =>
              have hrec : parseAllChunks d1 (p + 12 + len') f =
                  parseAllChunks d2 (p + 12 + len') f := by
                apply ih
                intro i h1 h2
                refine hagree i (by omega) (fun hx => ?_)
                rw [hPdef] at hx
                rcases List.mem_append.mp hx with hx | hx
                · obtain ⟨j, hj, rfl⟩ := List.mem_map.mp hx
                  have := List.mem_range.mp hj
                  omega
                · exact h2 hx
              simp [parseAllChunks, parseChunk, hp, hp2, hr, hr2, hc1, hc2,
                hty, hdata, hrec]
        · have hc1 : readU32BEL d1 (p + 8 + len') = none :=
            (readU32BEL_eq_none_iff d1 (p + 8 + len')).mpr (by omega)
          have hc2 : readU32BEL d2 (p + 8 + len') = none :=
            (readU32BEL_eq_none_iff d2 (p + 8 + len')).mpr (by omega)
          simp [parseAllChunks, parseChunk, hp, hp2, hr, hr2, hc1, hc2]
    · have hp2 : ¬ p < d2.length := by omega
      simp [parseAllChunks, hp, hp2]

/-- Claim C10: `decodePng` never validates chunk CRCs. Two byte strings
of equal length that both start with the PNG signature and agree
everywhere outside the CRC fields (as located in the first) decode to
structurally equal `Png` values — the CRC bytes affect neither the
result nor success. -/
theorem c10_crc_ignored (d1 d2 : List Nat)
    (hlen : d1.length = d2.length)
    (hh1 : d1.take 8 = pngHeader) (hh2 : d2.take 8 = pngHeader)
    (hagree : ∀ i < d1.length, i ∉ crcPositions d1 → d1.get? i = d2.get? i) :
    decodePng d1 = decodePng d2 := by
  have hl8 : 8 ≤ d1.length := by
    have : (d1.take 8).length = 8 := by rw [hh1]; rfl
    simp [List.length_take] at this
    omega
  have hfuel : d1.length + 1 = d2.length + 1 := by omega
  have hmain : parseAllChunks d1 8 (d1.length + 1) = parseAllChunks d2 8 (d2.length + 1) := by
    rw [← hfuel]
    apply parseAllChunks_crc_congr d1 d2 hlen
    intro i _ hx
    by_cases hil : i < d1.length
    · exact hagree i hil hx
    · rw [List.get?_eq_none.mpr (by omega), List.get?_eq_none.mpr (by omega)]
  have e1 : decodePng d1 = (parseAllChunks d1 8 (d1.length + 1)).map Png.mk := by
    unfold decodePng
    rw [if_neg (show ¬ d1.length < 8 by omega), if_pos hh1]
  have e2 : decodePng d2 = (parseAllChunks d2 8 (d2.length + 1)).map Png.mk := by
    unfold decodePng
    rw [if_neg (show ¬ d2.length < 8 by omega), if_pos hh2]
  rw [e1, e2, hmain]

/-- Witness for C10: a one-chunk PNG (IEND, empty data) with CRC bytes
`00 00 00 00` versus `09 09 09 09`. -/
theorem c10_crc_ignored_witness :
    ([0x89, 0x50, 0x4E, 0x47, 0x0D, 0x0A, 0x1A, 0x0A,
      0, 0, 0, 0, 73, 69, 78, 68, 0, 0, 0, 0] : List Nat).length =
      ([0x89, 0x50, 0x4E, 0x47, 0x0D, 0x0A, 0x1A, 0x0A,
        0, 0, 0, 0, 73, 69, 78, 68, 9, 9, 9, 9] : List Nat).length ∧
    ([0x89, 0x50, 0x4E, 0x47, 0x0D, 0x0A, 0x1A, 0x0A,
      0, 0, 0, 0, 73, 69, 78, 68, 0, 0, 0, 0] : List Nat).take 8 = pngHeader ∧
    ([0x89, 0x50, 0x4E, 0x47, 0x0D, 0x0A, 0x1A, 0x0A,
      0, 0, 0, 0, 73, 69, 78, 68, 9, 9, 9, 9] : List Nat).take 8 = pngHeader ∧
    decodePng
      [0x89, 0x50, 0x4E, 0x47, 0x0D, 0x0A, 0x1A, 0x0A,
        0, 0, 0, 0, 73, 69, 78, 68, 0, 0, 0, 0] =
    decodePng
      [0x89, 0x50, 0x4E, 0x47, 0x0D, 0x0A, 0x1A, 0x0A,
        0, 0, 0, 0, 73, 69, 78, 68, 9, 9, 9, 9] :=
  ⟨rfl, rfl, rfl,
    c10_crc_ignored _ _ rfl rfl rfl (by decide)⟩

/-- Reading the byte just written. -/
theorem writeU8_at (m : Nat → Nat) (p v : Nat) : writeU8 m p v p = v % 256 := by
  simp [writeU8]

/-- A byte store leaves other positions alone. -/
theorem writeU8_ne (m : Nat → Nat) (p v q : Nat) (h : q ≠ p) :
    writeU8 m p v q = m q := by
  simp [writeU8, h]

/-- A 16-bit store leaves positions outside `[p, p+2)` alone. -/
theorem writeU16_ne (m : Nat → Nat) (le : Bool) (p v q : Nat)
    (h : q < p ∨ p + 2 ≤ q) : writeU16 m le p v q = m q := by
  cases le <;>
  · simp only [writeU16, Bool.false_eq_true, ite_false, ite_true]
    rw [writeU8_ne _ _ _ _ (by omega), writeU8_ne _ _ _ _ (by omega)]

/-- A 32-bit store leaves positions outside `[p, p+4)` alone. -/
theorem writeU32_ne (m : Nat → Nat) (le : Bool) (p v q : Nat)
    (h : q < p ∨ p + 4 ≤ q) : writeU32 m le p v q = m q := by
  cases le <;>
  · simp only [writeU32, Bool.false_eq_true, ite_false, ite_true]
    rw [writeU8_ne _ _ _ _ (by omega), writeU8_ne _ _ _ _ (by omega),
      writeU8_ne _ _ _ _ (by omega), writeU8_ne _ _ _ _ (by omega)]

/-- A byte-list store leaves positions outside `[p, p+len)` alone. -/
theorem writeBytes_ne (xs : List Nat) :
    ∀ (m : Nat → Nat) (p q : Nat), q < p ∨ p + xs.length ≤ q →
      writeBytes m p xs q = m q := by
  induction xs with
  | nil => intro m p q _; rfl
  | cons x t ih =>
    intro m p q h
    show writeBytes (writeU8 m p x) (p + 1) t q = m q
    rw [ih (writeU8 m p x) (p + 1) q (by simp at h ⊢; omega),
      writeU8_ne _ _ _ _ (by simp at h; omega)]

/-- Reading back position `p + i` of a byte-list store. -/
theorem writeBytes_get (xs : List Nat) :
    ∀ (m : Nat → Nat) (p i : Nat), i < xs.length →
      writeBytes m p xs (p + i) = xs.getD i 0 % 256 := by
  induction xs with
  | nil => intro m p i h; simp at h
  | cons x t ih =>
    intro m p i h
    show writeBytes (writeU8 m p x) (p + 1) t (p + i) = _
    cases i with
    | zero =>
      rw [writeBytes_ne t _ _ _ (by omega)]
      simpa using writeU8_at m p x
    | succ j =>
      have := ih (writeU8 m p x) (p + 1) j (by simpa using h)
      rw [show p + (j + 1) = (p + 1) + j from by omega, this]
      rfl

/-- Evaluate a byte read from a known memory cell. -/
theorem get8_eval (L : Nat) (M : Nat → Nat) (p v : Nat) (hp : p < L)
    (hm : M p = v) : get8 ⟨L, M⟩ p = some v := by
  simp [get8, hp, hm]

/-- Evaluate a little-endian u16 read from two known memory cells. -/
theorem readU16_evalLE (L : Nat) (M : Nat → Nat) (p a b : Nat) (h : p + 1 < L)
    (ha : M p = a) (hb : M (p + 1) = b) :
    readU16 ⟨L, M⟩ true p = some (a + 256 * b) := by
  have hp : p < L := by omega
  simp [readU16, get8, hp, h, ha, hb]

/-- Evaluate a big-endian u16 read from two known memory cells. -/
theorem readU16_evalBE (L : Nat) (M : Nat → Nat) (p a b : Nat) (h : p + 1 < L)
    (ha : M p = a) (hb : M (p + 1) = b) :
    readU16 ⟨L, M⟩ false p = some (256 * a + b) := by
  have hp : p < L := by omega
  simp [readU16, get8, hp, h, ha, hb]

/-- Evaluate a little-endian u32 read from four known memory cells. -/
theorem readU32_evalLE (L : Nat) (M : Nat → Nat) (p a b c d : Nat) (h : p + 3 < L)
    (ha : M p = a) (hb : M (p + 1) = b) (hc : M (p + 2) = c) (hd : M (p + 3) = d) :
    readU32 ⟨L, M⟩ true p = some (a + 256 * b + 65536 * c + 16777216 * d) := by
  have hp : p < L := by omega
  have hp1 : p + 1 < L := by omega
  have hp2 : p + 2 < L := by omega
  simp [readU32, get8, hp, hp1, hp2, h, ha, hb, hc, hd]

/-- Read back a whole byte region whose cells hold a stored list. -/
theorem readBytes_eval (L : Nat) (M : Nat → Nat) :
    ∀ (xs : List Nat) (p n : Nat), xs.length = n → p + n ≤ L →
      (∀ i, i < n → M (p + i) = xs.getD i 0 % 256) →
      readLoop 1 (fun q => get8 ⟨L, M⟩ q) p n = some (xs.map (· % 256)) := by
  intro xs
  induction xs with
  | nil =>
    intro p n hn _ _
    subst hn
    rfl
  | cons x t ih =>
    intro p n hn hin hmem
    subst hn
    have hx : get8 ⟨L, M⟩ p = some (x % 256) :=
      get8_eval L M p (x % 256) (by simp at hin; omega) (by simpa using hmem 0 (by simp))
    have ht := ih (p + 1) t.length rfl (by simp at hin; omega)
      (fun i hi => by
        have := hmem (i + 1) (by simpa using Nat.succ_lt_succ hi)
        rw [show p + (i + 1) = (p + 1) + i from by omega] at this
        simpa using this)
    have hun : readLoop 1 (fun q => get8 ⟨L, M⟩ q) p (t.length + 1) =
        (get8 ⟨L, M⟩ p).bind (fun y =>
          (readLoop 1 (fun q => get8 ⟨L, M⟩ q) (p + 1) t.length).bind
            (fun rest => some (y :: rest))) := rfl
    simp only [List.length_cons, List.map_cons]
    rw [hun, hx, ht]
    rfl

/-- Witness for the amended C5: a UINT16 payload of two elements at
offset 0 of a 2-byte buffer (needs 4 bytes) fails to decode. -/
theorem c5_truncated_payload_fails_witness :
    ((3 : Nat) = 1 ∨ (3 : Nat) = 3 ∨ (3 : Nat) = 4 ∨ (3 : Nat) = 5 ∨ (3 : Nat) = 6 ∨
      (3 : Nat) = 7 ∨ (3 : Nat) = 8 ∨ (3 : Nat) = 9 ∨ (3 : Nat) = 10 ∨ (3 : Nat) = 11 ∨
      (3 : Nat) = 12) ∧
    (0 : Nat) < 2 ∧
    (Buf.ofList [0, 0]).len < 0 + neededPayloadBytes 3 2 ∧
    readEntryValue (Buf.ofList [0, 0]) true 0 3 2 = none :=
  ⟨by decide, by decide, by decide,
    c5_truncated_payload_fails (Buf.ofList [0, 0]) true 0 3 2 (by decide) (by decide) (by decide)⟩


theorem writeBytes_nil (m : Nat → Nat) (p : Nat) : writeBytes m p [] = m := rfl

theorem writeBytes_cons (m : Nat → Nat) (p x : Nat) (xs : List Nat) :
    writeBytes m p (x :: xs) = writeBytes (writeU8 m p x) (p + 1) xs := rfl

theorem readAllIfds_succ (buf : Buf) (le : Bool) (ptr fuel : Nat) :
    readAllIfds buf le ptr (fuel + 1) =
      if ptr = 0 then some [] else
        (decodeIfd buf ptr le).bind fun ifd =>
          (readU32 buf le (ptr + (2 + ifd.length * 12))).bind fun next =>
            (readAllIfds buf le next fuel).bind fun rest => some (ifd :: rest) := rfl

theorem get8_eval2 (b : Buf) (p v : Nat) (hp : p < b.len) (hm : b.mem p = v) :
    get8 b p = some v := by
  simp [get8, hp, hm]

theorem readU16LE_eval2 (b : Buf) (p x y : Nat) (h : p + 1 < b.len)
    (hx : b.mem p = x) (hy : b.mem (p + 1) = y) :
    readU16 b true p = some (x + 256 * y) := by
  have hp : p < b.len := by omega
  simp [readU16, get8, hp, h, hx, hy]

theorem readU16BE_eval2 (b : Buf) (p x y : Nat) (h : p + 1 < b.len)
    (hx : b.mem p = x) (hy : b.mem (p + 1) = y) :
    readU16 b false p = some (256 * x + y) := by
  have hp : p < b.len := by omega
  simp [readU16, get8, hp, h, hx, hy]

theorem readU32LE_eval2 (b : Buf) (p x y z w : Nat) (h : p + 3 < b.len)
    (hx : b.mem p = x) (hy : b.mem (p + 1) = y) (hz : b.mem (p + 2) = z)
    (hw : b.mem (p + 3) = w) :
    readU32 b true p = some (x + 256 * y + 65536 * z + 16777216 * w) := by
  have hp : p < b.len := by omega
  have hp1 : p + 1 < b.len := by omega
  have hp2 : p + 2 < b.len := by omega
  simp [readU32, get8, hp, hp1, hp2, h, hx, hy, hz, hw]

theorem readBytes_eval2 (b : Buf) (xs : List Nat) (p n : Nat) (hn : xs.length = n)
    (hin : p + n ≤ b.len) (hmem : ∀ i, i < n → b.mem (p + i) = xs.getD i 0 % 256) :
    readLoop 1 (fun q => get8 b q) p n = some (xs.map (· % 256)) :=
  readBytes_eval b.len b.mem xs p n hn hin hmem

theorem getD_mod256 (xs : List Nat) (i : Nat) (h : ∀ c ∈ xs, c < 256) :
    xs.getD i 0 % 256 = xs.getD i 0 := by
  by_cases hi : i < xs.length
  · have hmem : xs.getD i 0 ∈ xs := by
      rw [List.getD_eq_getElem xs 0 hi]
      exact List.getElem_mem hi
    exact Nat.mod_eq_of_lt (h _ hmem)
  · rw [List.getD_eq_default xs 0 (by omega)]

theorem exifFrame_len (b : Buf) : (exifFrame b).len = b.len + 8 := rfl

theorem exifFrame_mem0 (b : Buf) :
    (exifFrame b).mem 0 = (b.len + 8) % 65536 / 256 % 256 := by
  simp [exifFrame, blit, writeU16, writeU8]

theorem exifFrame_mem1 (b : Buf) :
    (exifFrame b).mem 1 = (b.len + 8) % 65536 % 256 := by
  simp [exifFrame, blit, writeU16, writeU8]

theorem exifFrame_memhdr (b : Buf) :
    (exifFrame b).mem 2 = 0x45 ∧ (exifFrame b).mem 3 = 0x78 ∧
    (exifFrame b).mem 4 = 0x69 ∧ (exifFrame b).mem 5 = 0x66 ∧
    (exifFrame b).mem 6 = 0 ∧ (exifFrame b).mem 7 = 0 := by
  refine ⟨?_, ?_, ?_, ?_, ?_, ?_⟩ <;> simp [exifFrame, blit, writeU16, writeU8]

theorem exifFrame_drop_len (b : Buf) : ((exifFrame b).drop 8).len = b.len := by
  simp [exifFrame, Buf.drop]

theorem exifFrame_drop_mem (b : Buf) (p : Nat) (hp : p < b.len) :
    ((exifFrame b).drop 8).mem p = b.mem p := by
  simp only [exifFrame, Buf.drop, blit]
  rw [if_pos ⟨by omega, by omega⟩]
  simp


theorem c4bytesBoth_split (s0 s1 s2 s3 : Nat) (u : List Nat) :
    c4bytesBoth [s0, s1, s2, s3] u =
      (exifTiffPrefix ++ [2, 0] ++ evRecordBytes [s0, s1, s2, s3] ++
        ucRecordBytes (8 + u.length) 56 ++ [0, 0, 0, 0]) ++
      (asciiCommentHeader ++ u.map (· % 256)) := by
  simp [c4bytesBoth, List.append_assoc]

theorem c4bytesBoth_getD_payload (s0 s1 s2 s3 : Nat) (u : List Nat) (i : Nat) :
    (c4bytesBoth [s0, s1, s2, s3] u).getD (56 + i) 0 =
      (65 :: 83 :: 67 :: 73 :: 73 :: 0 :: 0 :: 0 :: u.map (· % 256)).getD i 0 := by
  rw [c4bytesBoth_split, List.getD_append_right _ _ _ _ (by
    simp [exifTiffPrefix, evRecordBytes, ucRecordBytes, u32le])]
  congr 1
  all_goals simp [exifTiffPrefix, evRecordBytes, ucRecordBytes, u32le, asciiCommentHeader]

set_option maxHeartbeats 4000000 in
theorem encodeExif_both_mem (s0 s1 s2 s3 : Nat) (u : List Nat) (q : Nat)
    (hq : q < 64 + u.length) :
    (encodeExif ⟨some [s0, s1, s2, s3], some u⟩).map (fun b => b.mem q) =
      some ((c4bytesBoth [s0, s1, s2, s3] u).getD q 0) := by
  have h1 : ¬ (8 + u.length ≤ 4) := by omega
  have h2 : 4 < 8 + u.length := by omega
  simp [encodeExif, encodeTiff, sumIfdSizes, getEncodedIfdSize, getEncodedIfdSizeV,
    writeTopIfds, writeIfd, writeIfdGo, writeChildIfd, writeEntryValue,
    EntryValue.jsLength, getTypeSize, asciiCommentHeader, h1, h2]
  by_cases hq56 : q < 56
  · interval_cases q <;>
      simp [writeU32, writeU16, writeU8, writeBytes_cons, writeBytes_nil, writeBytes_ne,
        c4bytesBoth, exifTiffPrefix, evRecordBytes, ucRecordBytes, u32le,
        asciiCommentHeader] <;> omega
  · obtain ⟨i, rfl⟩ : ∃ i, q = 56 + i := ⟨q - 56, by omega⟩
    rw [writeU32_ne _ _ _ _ _ (by omega), writeU32_ne _ _ _ _ _ (by omega),
      writeBytes_get _ _ _ _ (by simp; omega),
      ← List.getD_eq_getElem?_getD, c4bytesBoth_getD_payload,
      getD_mod256 _ _ (by
        intro c hc
        simp at hc
        rcases hc with rfl | rfl | rfl | rfl | rfl | rfl | rfl | rfl | ⟨x, hx, rfl⟩ <;> omega)]


/-- Shared TIFF-prefix decode for all Exif encodings: endianness mark,
IFD0 with the single sub-IFD pointer to offset 26, zero next-IFD. -/
theorem decodeTiff_c4 (td : Buf) (hlen : 26 ≤ td.len)
    (hmem : ∀ q, q < 26 → td.mem q = exifTiffPrefix.getD q 0) :
    decodeTiff td = some ⟨true, [[(0x8769, 4, .uint32s [26])]]⟩ := by
  have m0 : td.mem 0 = 73 := by rw [hmem 0 (by omega)]; rfl
  have m1 : td.mem 1 = 73 := by rw [hmem 1 (by omega)]; rfl
  have m2 : td.mem 2 = 42 := by rw [hmem 2 (by omega)]; rfl
  have m3 : td.mem 3 = 0 := by rw [hmem 3 (by omega)]; rfl
  have m4 : td.mem 4 = 8 := by rw [hmem 4 (by omega)]; rfl
  have m5 : td.mem 5 = 0 := by rw [hmem 5 (by omega)]; rfl
  have m6 : td.mem 6 = 0 := by rw [hmem 6 (by omega)]; rfl
  have m7 : td.mem 7 = 0 := by rw [hmem 7 (by omega)]; rfl
  have m8 : td.mem 8 = 1 := by rw [hmem 8 (by omega)]; rfl
  have m9 : td.mem 9 = 0 := by rw [hmem 9 (by omega)]; rfl
  have m10 : td.mem 10 = 105 := by rw [hmem 10 (by omega)]; rfl
  have m11 : td.mem 11 = 135 := by rw [hmem 11 (by omega)]; rfl
  have m12 : td.mem 12 = 4 := by rw [hmem 12 (by omega)]; rfl
  have m13 : td.mem 13 = 0 := by rw [hmem 13 (by omega)]; rfl
  have m14 : td.mem 14 = 1 := by rw [hmem 14 (by omega)]; rfl
  have m15 : td.mem 15 = 0 := by rw [hmem 15 (by omega)]; rfl
  have m16 : td.mem 16 = 0 := by rw [hmem 16 (by omega)]; rfl
  have m17 : td.mem 17 = 0 := by rw [hmem 17 (by omega)]; rfl
  have m18 : td.mem 18 = 26 := by rw [hmem 18 (by omega)]; rfl
  have m19 : td.mem 19 = 0 := by rw [hmem 19 (by omega)]; rfl
  have m20 : td.mem 20 = 0 := by rw [hmem 20 (by omega)]; rfl
  have m21 : td.mem 21 = 0 := by rw [hmem 21 (by omega)]; rfl
  have m22 : td.mem 22 = 0 := by rw [hmem 22 (by omega)]; rfl
  have m23 : td.mem 23 = 0 := by rw [hmem 23 (by omega)]; rfl
  have m24 : td.mem 24 = 0 := by rw [hmem 24 (by omega)]; rfl
  have m25 : td.mem 25 = 0 := by rw [hmem 25 (by omega)]; rfl
  have hb0 : get8 td 0 = some 73 := get8_eval2 td 0 73 (by omega) m0
  have hb1 : get8 td 1 = some 73 := get8_eval2 td 1 73 (by omega) m1
  have hb2 : get8 td 2 = some 42 := get8_eval2 td 2 42 (by omega) m2
  have hb3 : get8 td 3 = some 0 := get8_eval2 td 3 0 (by omega) m3
  have hfirst : readU32 td true 4 = some 8 := by
    rw [readU32LE_eval2 td 4 8 0 0 0 (by omega) m4 m5 m6 m7]
  have hcount : readU16 td true 8 = some 1 := by
    rw [readU16LE_eval2 td 8 1 0 (by omega) m8 m9]
  have htag : readU16 td true 10 = some 34665 := by
    rw [readU16LE_eval2 td 10 105 135 (by omega) m10 m11]
  have hty : readU16 td true 12 = some 4 := by
    rw [readU16LE_eval2 td 12 4 0 (by omega) m12 m13]
  have hcnt : readU32 td true 14 = some 1 := by
    rw [readU32LE_eval2 td 14 1 0 0 0 (by omega) m14 m15 m16 m17]
  have hval : readU32 td true 18 = some 26 := by
    rw [readU32LE_eval2 td 18 26 0 0 0 (by omega) m18 m19 m20 m21]
  have hnext : readU32 td true 22 = some 0 := by
    rw [readU32LE_eval2 td 22 0 0 0 0 (by omega) m22 m23 m24 m25]
  have hloop1 : readLoop 4 (fun p => readU32 td true p) 18 1 =
      (readU32 td true 18).bind (fun x => some [x]) := rfl
  have hentry : readEntry td true 10 = some ((34665, 4, EntryValue.uint32s [26]), 22) := by
    simp [readEntry, readEntryValue, htag, hty, hcnt, getTypeSize, hloop1, hval]
  have hel1 : readEntriesLoop td true 10 1 =
      (readEntry td true 10).bind (fun en =>
        (readEntriesLoop td true en.2 0).bind fun rest => some (en.1 :: rest)) := rfl
  have hifd : decodeIfd td 8 true = some [(34665, 4, EntryValue.uint32s [26])] := by
    simp [decodeIfd, hcount, hel1, hentry, readEntriesLoop]
  have hall0 : readAllIfds td true 0 (td.len - 1 + 1) = some [] := by
    rw [readAllIfds_succ]
    simp
  have hall : readAllIfds td true 8 (td.len + 1) =
      some [[(34665, 4, EntryValue.uint32s [26])]] := by
    rw [readAllIfds_succ]
    rw [show td.len = td.len - 1 + 1 from by omega]
    simp [hifd, hnext, hall0]
  simp [decodeTiff, hb0, hb1, hb2, hb3, hfirst, hall]


set_option maxHeartbeats 1000000 in
/-- Decode of the Exif sub-IFD written for a record with both fields. -/
theorem decodeIfd_c4_both (td : Buf) (s0 s1 s2 s3 : Nat) (u : List Nat)
    (htdlen : td.len = 64 + u.length)
    (hs0 : s0 < 128) (hs1 : s1 < 128) (hs2 : s2 < 128) (hs3 : s3 < 128)
    (hu : ∀ c ∈ u, c < 128) (hN : u.length ≤ 65463)
    (htdmem : ∀ p, p < 64 + u.length →
      td.mem p = (c4bytesBoth [s0, s1, s2, s3] u).getD p 0) :
    decodeIfd td 26 true = some
      [(0x9000, 7, .uint8s [s0, s1, s2, s3]),
       (0x9286, 7, .uint8s (asciiCommentHeader ++ u.map (· % 256)))] := by
  have hlt : ∀ p : Nat, p < 56 → p < 64 + u.length := by omega
  have m26 : td.mem 26 = 2 := by rw [htdmem 26 (by omega)]; rfl
  have m27 : td.mem 27 = 0 := by rw [htdmem 27 (by omega)]; rfl
  have m28 : td.mem 28 = 0 := by rw [htdmem 28 (by omega)]; rfl
  have m29 : td.mem 29 = 144 := by rw [htdmem 29 (by omega)]; rfl
  have m30 : td.mem 30 = 7 := by rw [htdmem 30 (by omega)]; rfl
  have m31 : td.mem 31 = 0 := by rw [htdmem 31 (by omega)]; rfl
  have m32 : td.mem 32 = 4 := by rw [htdmem 32 (by omega)]; rfl
  have m33 : td.mem 33 = 0 := by rw [htdmem 33 (by omega)]; rfl
  have m34 : td.mem 34 = 0 := by rw [htdmem 34 (by omega)]; rfl
  have m35 : td.mem 35 = 0 := by rw [htdmem 35 (by omega)]; rfl
  have m36 : td.mem 36 = s0 % 256 := by rw [htdmem 36 (by omega)]; rfl
  have m37 : td.mem 37 = s1 % 256 := by rw [htdmem 37 (by omega)]; rfl
  have m38 : td.mem 38 = s2 % 256 := by rw [htdmem 38 (by omega)]; rfl
  have m39 : td.mem 39 = s3 % 256 := by rw [htdmem 39 (by omega)]; rfl
  have m40 : td.mem 40 = 134 := by rw [htdmem 40 (by omega)]; rfl
  have m41 : td.mem 41 = 146 := by rw [htdmem 41 (by omega)]; rfl
  have m42 : td.mem 42 = 7 := by rw [htdmem 42 (by omega)]; rfl
  have m43 : td.mem 43 = 0 := by rw [htdmem 43 (by omega)]; rfl
  have m44 : td.mem 44 = (8 + u.length) % 4294967296 % 256 := by
    rw [htdmem 44 (by omega)]; rfl
  have m45 : td.mem 45 = (8 + u.length) % 4294967296 / 256 % 256 := by
    rw [htdmem 45 (by omega)]; rfl
  have m46 : td.mem 46 = (8 + u.length) % 4294967296 / 65536 % 256 := by
    rw [htdmem 46 (by omega)]; rfl
  have m47 : td.mem 47 = (8 + u.length) % 4294967296 / 16777216 % 256 := by
    rw [htdmem 47 (by omega)]; rfl
  have m48 : td.mem 48 = 56 % 4294967296 % 256 := by rw [htdmem 48 (by omega)]; rfl
  have m49 : td.mem 49 = 56 % 4294967296 / 256 % 256 := by rw [htdmem 49 (by omega)]; rfl
  have m50 : td.mem 50 = 56 % 4294967296 / 65536 % 256 := by rw [htdmem 50 (by omega)]; rfl
  have m51 : td.mem 51 = 56 % 4294967296 / 16777216 % 256 := by
    rw [htdmem 51 (by omega)]; rfl
  have hc : readU16 td true 26 = some 2 := by
    rw [readU16LE_eval2 td 26 2 0 (by omega) m26 m27]
  have htag1 : readU16 td true 28 = some 36864 := by
    rw [readU16LE_eval2 td 28 0 144 (by omega) m28 m29]
  have hty1 : readU16 td true 30 = some 7 := by
    rw [readU16LE_eval2 td 30 7 0 (by omega) m30 m31]
  have hcnt1 : readU32 td true 32 = some 4 := by
    rw [readU32LE_eval2 td 32 4 0 0 0 (by omega) m32 m33 m34 m35]
  have hev : readLoop 1 (fun p => get8 td p) 36 4 = some [s0, s1, s2, s3] := by
    rw [readBytes_eval2 td [s0, s1, s2, s3] 36 4 rfl (by omega)
      (fun i hi => by
        interval_cases i
        · exact m36
        · exact m37
        · exact m38
        · exact m39)]
    simp [Nat.mod_eq_of_lt (show s0 < 256 by omega),
      Nat.mod_eq_of_lt (show s1 < 256 by omega),
      Nat.mod_eq_of_lt (show s2 < 256 by omega),
      Nat.mod_eq_of_lt (show s3 < 256 by omega)]
  have hentry1 : readEntry td true 28 =
      some ((36864, 7, EntryValue.uint8s [s0, s1, s2, s3]), 40) := by
    simp [readEntry, readEntryValue, htag1, hty1, hcnt1, getTypeSize, hev]
  have htag2 : readU16 td true 40 = some 37510 := by
    rw [readU16LE_eval2 td 40 134 146 (by omega) m40 m41]
  have hty2 : readU16 td true 42 = some 7 := by
    rw [readU16LE_eval2 td 42 7 0 (by omega) m42 m43]
  have hcnt2 : readU32 td true 44 = some (8 + u.length) := by
    rw [readU32LE_eval2 td 44 _ _ _ _ (by omega) m44 m45 m46 m47]
    congr 1
    omega
  have hoff2 : readU32 td true 48 = some 56 := by
    rw [readU32LE_eval2 td 48 _ _ _ _ (by omega) m48 m49 m50 m51]
  have hxs : ∀ c ∈ asciiCommentHeader ++ u.map (· % 256), c < 256 := by
    intro c hc
    simp [asciiCommentHeader] at hc
    rcases hc with rfl | rfl | rfl | rfl | rfl | rfl | rfl | rfl | ⟨x, hx, rfl⟩ <;> omega
  have huc : readLoop 1 (fun p => get8 td p) 56 (8 + u.length) =
      some (asciiCommentHeader ++ u.map (· % 256)) := by
    rw [readBytes_eval2 td (asciiCommentHeader ++ u.map (· % 256)) 56 (8 + u.length)
      (by simp [asciiCommentHeader]; omega) (by omega)
      (fun i hi => by
        rw [htdmem (56 + i) (by omega), c4bytesBoth_getD_payload,
          getD_mod256 _ _ hxs]
        rfl)]
    congr 1
    exact map_mod256_eq _ hxs
  have hentry2 : readEntry td true 40 =
      some ((37510, 7, EntryValue.uint8s (asciiCommentHeader ++ u.map (· % 256))), 52) := by
    simp [readEntry, readEntryValue, htag2, hty2, hcnt2, getTypeSize, hoff2, huc,
      show ¬(8 + u.length ≤ 4) from by omega]
  have hl2 : readEntriesLoop td true 28 2 =
      (readEntry td true 28).bind (fun en =>
        (readEntriesLoop td true en.2 1).bind fun rest => some (en.1 :: rest)) := rfl
  have hl1 : ∀ p, readEntriesLoop td true p 1 =
      (readEntry td true p).bind (fun en =>
        (readEntriesLoop td true en.2 0).bind fun rest => some (en.1 :: rest)) :=
    fun _ => rfl
  have hl0 : ∀ p, readEntriesLoop td true p 0 = some [] := fun _ => rfl
  simp [decodeIfd, hc, hl2, hentry1, hl1, hentry2, hl0]


set_option maxHeartbeats 1000000 in
/-- Full decode of the framed Exif payload for a both-fields record. -/
theorem c4_decode_both (L : Nat) (M : Nat → Nat) (s0 s1 s2 s3 : Nat) (u : List Nat)
    (hL : L = 64 + u.length) (hN : u.length ≤ 65463)
    (hs0 : s0 < 128) (hs1 : s1 < 128) (hs2 : s2 < 128) (hs3 : s3 < 128)
    (hu : ∀ c ∈ u, c < 128)
    (hmem : ∀ q, q < 64 + u.length →
      M q = (c4bytesBoth [s0, s1, s2, s3] u).getD q 0) :
    decodeExif (exifFrame ⟨L, M⟩) = some ⟨some [s0, s1, s2, s3], some u⟩ := by
  subst hL
  set b := exifFrame ⟨64 + u.length, M⟩ with hb
  have hblen : b.len = 72 + u.length := by
    rw [hb, exifFrame_len]
    show 64 + u.length + 8 = 72 + u.length
    omega
  have htdlen : (b.drop 8).len = 64 + u.length := by
    rw [hb, exifFrame_drop_len]
  have htdmem : ∀ p, p < 64 + u.length →
      (b.drop 8).mem p = (c4bytesBoth [s0, s1, s2, s3] u).getD p 0 := by
    intro p hp
    rw [hb, exifFrame_drop_mem ⟨64 + u.length, M⟩ p hp]
    exact hmem p hp
  have hpre : ∀ q, q < 26 →
      (c4bytesBoth [s0, s1, s2, s3] u).getD q 0 = exifTiffPrefix.getD q 0 := by
    intro q hq
    interval_cases q <;> rfl
  have htiff : decodeTiff (b.drop 8) = some ⟨true, [[(0x8769, 4, .uint32s [26])]]⟩ :=
    decodeTiff_c4 (b.drop 8) (by omega)
      (fun q hq => by rw [htdmem q (by omega), hpre q hq])
  have hchild : decodeIfd (b.drop 8) 26 true = some
      [(0x9000, 7, .uint8s [s0, s1, s2, s3]),
       (0x9286, 7, .uint8s (asciiCommentHeader ++ u.map (· % 256)))] :=
    decodeIfd_c4_both (b.drop 8) s0 s1 s2 s3 u htdlen hs0 hs1 hs2 hs3 hu hN htdmem
  have hsize : readU16 b false 0 = some (72 + u.length) := by
    rw [readU16BE_eval2 b 0 _ _ (by omega) (exifFrame_mem0 ⟨64 + u.length, M⟩)
      (exifFrame_mem1 ⟨64 + u.length, M⟩)]
    congr 1
    show 256 * ((64 + u.length + 8) % 65536 / 256 % 256) +
      (64 + u.length + 8) % 65536 % 256 = 72 + u.length
    omega
  obtain ⟨g2, g3, g4, g5, g6, g7⟩ := exifFrame_memhdr ⟨64 + u.length, M⟩
  have hg2 : get8 b 2 = some 0x45 := get8_eval2 b 2 0x45 (by omega) g2
  have hg3 : get8 b 3 = some 0x78 := get8_eval2 b 3 0x78 (by omega) g3
  have hg4 : get8 b 4 = some 0x69 := get8_eval2 b 4 0x69 (by omega) g4
  have hg5 : get8 b 5 = some 0x66 := get8_eval2 b 5 0x66 (by omega) g5
  have hg6 : get8 b 6 = some 0 := get8_eval2 b 6 0 (by omega) g6
  have hg7 : get8 b 7 = some 0 := get8_eval2 b 7 0 (by omega) g7
  have hdrop8 : (asciiCommentHeader ++ u.map (· % 256)).drop 8 = u.map (· % 256) := rfl
  have hdrop8u : (asciiCommentHeader ++ u).drop 8 = u := by
    have := List.drop_left asciiCommentHeader u
    simpa [asciiCommentHeader] using this
  simp [decodeExif, hsize, hblen, hdrop8u, hg2, hg3, hg4, hg5, hg6, hg7, htiff, hchild,
    EntryValue.jsLength, EntryValue.numAt, readExifIfd, EntryValue.bytes, emptyExif,
    hdrop8, map_mod256_eq u (fun c hc => by have := hu c hc; omega)]


theorem encodeExif_none_len : (encodeExif ⟨none, none⟩).map Buf.len = some 32 := by
  simp [encodeExif, encodeTiff, sumIfdSizes, getEncodedIfdSize, getEncodedIfdSizeV,
    writeTopIfds, writeIfd, writeIfdGo, writeChildIfd, writeEntryValue,
    EntryValue.jsLength, getTypeSize]

theorem encodeExif_ev_len (s0 s1 s2 s3 : Nat) :
    (encodeExif ⟨some [s0, s1, s2, s3], none⟩).map Buf.len = some 44 := by
  simp [encodeExif, encodeTiff, sumIfdSizes, getEncodedIfdSize, getEncodedIfdSizeV,
    writeTopIfds, writeIfd, writeIfdGo, writeChildIfd, writeEntryValue,
    EntryValue.jsLength, getTypeSize]

theorem encodeExif_uc_len (u : List Nat) :
    (encodeExif ⟨none, some u⟩).map Buf.len = some (52 + u.length) := by
  have h1 : ¬ (8 + u.length ≤ 4) := by omega
  have h2 : 4 < 8 + u.length := by omega
  simp [encodeExif, encodeTiff, sumIfdSizes, getEncodedIfdSize, getEncodedIfdSizeV,
    writeTopIfds, writeIfd, writeIfdGo, writeChildIfd, writeEntryValue,
    EntryValue.jsLength, getTypeSize, asciiCommentHeader, h1, h2]
  omega

theorem encodeExif_both_len (s0 s1 s2 s3 : Nat) (u : List Nat) :
    (encodeExif ⟨some [s0, s1, s2, s3], some u⟩).map Buf.len = some (64 + u.length) := by
  have h1 : ¬ (8 + u.length ≤ 4) := by omega
  have h2 : 4 < 8 + u.length := by omega
  simp [encodeExif, encodeTiff, sumIfdSizes, getEncodedIfdSize, getEncodedIfdSizeV,
    writeTopIfds, writeIfd, writeIfdGo, writeChildIfd, writeEntryValue,
    EntryValue.jsLength, getTypeSize, asciiCommentHeader, h1, h2]
  omega

set_option maxHeartbeats 1000000 in
theorem encodeExif_none_mem (q : Nat) (hq : q < 32) :
    (encodeExif ⟨none, none⟩).map (fun b => b.mem q) = some (c4bytesNone.getD q 0) := by
  simp [encodeExif, encodeTiff, sumIfdSizes, getEncodedIfdSize, getEncodedIfdSizeV,
    writeTopIfds, writeIfd, writeIfdGo, writeChildIfd, writeEntryValue,
    EntryValue.jsLength, getTypeSize]
  interval_cases q <;>
    simp [writeU32, writeU16, writeU8, c4bytesNone, exifTiffPrefix]

set_option maxHeartbeats 2000000 in
theorem encodeExif_ev_mem (s0 s1 s2 s3 : Nat) (q : Nat) (hq : q < 44) :
    (encodeExif ⟨some [s0, s1, s2, s3], none⟩).map (fun b => b.mem q) =
      some ((c4bytesEv [s0, s1, s2, s3]).getD q 0) := by
  simp [encodeExif, encodeTiff, sumIfdSizes, getEncodedIfdSize, getEncodedIfdSizeV,
    writeTopIfds, writeIfd, writeIfdGo, writeChildIfd, writeEntryValue,
    EntryValue.jsLength, getTypeSize]
  interval_cases q <;>
    simp [writeU32, writeU16, writeU8, writeBytes_cons, writeBytes_nil,
      c4bytesEv, exifTiffPrefix, evRecordBytes]

theorem c4bytesUc_split (u : List Nat) :
    c4bytesUc u =
      (exifTiffPrefix ++ [1, 0] ++ ucRecordBytes (8 + u.length) 44 ++ [0, 0, 0, 0]) ++
      (asciiCommentHeader ++ u.map (· % 256)) := by
  simp [c4bytesUc, List.append_assoc]

theorem c4bytesUc_getD_payload (u : List Nat) (i : Nat) :
    (c4bytesUc u).getD (44 + i) 0 =
      (65 :: 83 :: 67 :: 73 :: 73 :: 0 :: 0 :: 0 :: u.map (· % 256)).getD i 0 := by
  rw [c4bytesUc_split, List.getD_append_right _ _ _ _ (by
    simp [exifTiffPrefix, ucRecordBytes, u32le])]
  congr 1
  all_goals simp [exifTiffPrefix, ucRecordBytes, u32le, asciiCommentHeader]

set_option maxHeartbeats 4000000 in
theorem encodeExif_uc_mem (u : List Nat) (q : Nat) (hq : q < 52 + u.length) :
    (encodeExif ⟨none, some u⟩).map (fun b => b.mem q) =
      some ((c4bytesUc u).getD q 0) := by
  have h1 : ¬ (8 + u.length ≤ 4) := by omega
  have h2 : 4 < 8 + u.length := by omega
  simp [encodeExif, encodeTiff, sumIfdSizes, getEncodedIfdSize, getEncodedIfdSizeV,
    writeTopIfds, writeIfd, writeIfdGo, writeChildIfd, writeEntryValue,
    EntryValue.jsLength, getTypeSize, asciiCommentHeader, h1, h2]
  by_cases hq44 : q < 44
  · interval_cases q <;>
      simp [writeU32, writeU16, writeU8, writeBytes_cons, writeBytes_nil, writeBytes_ne,
        c4bytesUc, exifTiffPrefix, ucRecordBytes, u32le, asciiCommentHeader] <;> omega
  · obtain ⟨i, rfl⟩ : ∃ i, q = 44 + i := ⟨q - 44, by omega⟩
    rw [writeU32_ne _ _ _ _ _ (by omega), writeU32_ne _ _ _ _ _ (by omega),
      writeBytes_get _ _ _ _ (by simp; omega),
      ← List.getD_eq_getElem?_getD, c4bytesUc_getD_payload,
      getD_mod256 _ _ (by
        intro c hc
        simp at hc
        rcases hc with rfl | rfl | rfl | rfl | rfl | rfl | rfl | rfl | ⟨x, hx, rfl⟩ <;> omega)]


/-- Decode of the (empty) Exif sub-IFD written for the empty record. -/
theorem decodeIfd_c4_none (td : Buf) (htdlen : td.len = 32)
    (htdmem : ∀ p, p < 32 → td.mem p = c4bytesNone.getD p 0) :
    decodeIfd td 26 true = some [] := by
  have m26 : td.mem 26 = 0 := by rw [htdmem 26 (by omega)]; rfl
  have m27 : td.mem 27 = 0 := by rw [htdmem 27 (by omega)]; rfl
  have hc : readU16 td true 26 = some 0 := by
    rw [readU16LE_eval2 td 26 0 0 (by omega) m26 m27]
  simp [decodeIfd, hc, readEntriesLoop]

/-- Decode of the Exif sub-IFD written for an ExifVersion-only record. -/
theorem decodeIfd_c4_ev (td : Buf) (s0 s1 s2 s3 : Nat) (htdlen : td.len = 44)
    (hs0 : s0 < 128) (hs1 : s1 < 128) (hs2 : s2 < 128) (hs3 : s3 < 128)
    (htdmem : ∀ p, p < 44 → td.mem p = (c4bytesEv [s0, s1, s2, s3]).getD p 0) :
    decodeIfd td 26 true = some [(0x9000, 7, .uint8s [s0, s1, s2, s3])] := by
  have m26 : td.mem 26 = 1 := by rw [htdmem 26 (by omega)]; rfl
  have m27 : td.mem 27 = 0 := by rw [htdmem 27 (by omega)]; rfl
  have m28 : td.mem 28 = 0 := by rw [htdmem 28 (by omega)]; rfl
  have m29 : td.mem 29 = 144 := by rw [htdmem 29 (by omega)]; rfl
  have m30 : td.mem 30 = 7 := by rw [htdmem 30 (by omega)]; rfl
  have m31 : td.mem 31 = 0 := by rw [htdmem 31 (by omega)]; rfl
  have m32 : td.mem 32 = 4 := by rw [htdmem 32 (by omega)]; rfl
  have m33 : td.mem 33 = 0 := by rw [htdmem 33 (by omega)]; rfl
  have m34 : td.mem 34 = 0 := by rw [htdmem 34 (by omega)]; rfl
  have m35 : td.mem 35 = 0 := by rw [htdmem 35 (by omega)]; rfl
  have m36 : td.mem 36 = s0 % 256 := by rw [htdmem 36 (by omega)]; rfl
  have m37 : td.mem 37 = s1 % 256 := by rw [htdmem 37 (by omega)]; rfl
  have m38 : td.mem 38 = s2 % 256 := by rw [htdmem 38 (by omega)]; rfl
  have m39 : td.mem 39 = s3 % 256 := by rw [htdmem 39 (by omega)]; rfl
  have hc : readU16 td true 26 = some 1 := by
    rw [readU16LE_eval2 td 26 1 0 (by omega) m26 m27]
  have htag1 : readU16 td true 28 = some 36864 := by
    rw [readU16LE_eval2 td 28 0 144 (by omega) m28 m29]
  have hty1 : readU16 td true 30 = some 7 := by
    rw [readU16LE_eval2 td 30 7 0 (by omega) m30 m31]
  have hcnt1 : readU32 td true 32 = some 4 := by
    rw [readU32LE_eval2 td 32 4 0 0 0 (by omega) m32 m33 m34 m35]
  have hev : readLoop 1 (fun p => get8 td p) 36 4 = some [s0, s1, s2, s3] := by
    rw [readBytes_eval2 td [s0, s1, s2, s3] 36 4 rfl (by omega)
      (fun i hi => by
        interval_cases i
        · exact m36
        · exact m37
        · exact m38
        · exact m39)]
    simp [Nat.mod_eq_of_lt (show s0 < 256 by omega),
      Nat.mod_eq_of_lt (show s1 < 256 by omega),
      Nat.mod_eq_of_lt (show s2 < 256 by omega),
      Nat.mod_eq_of_lt (show s3 < 256 by omega)]
  have hentry1 : readEntry td true 28 =
      some ((36864, 7, EntryValue.uint8s [s0, s1, s2, s3]), 40) := by
    simp [readEntry, readEntryValue, htag1, hty1, hcnt1, getTypeSize, hev]
  have hl1 : readEntriesLoop td true 28 1 =
      (readEntry td true 28).bind (fun en =>
        (readEntriesLoop td true en.2 0).bind fun rest => some (en.1 :: rest)) := rfl
  have hl0 : ∀ p, readEntriesLoop td true p 0 = some [] := fun _ => rfl
  simp [decodeIfd, hc, hl1, hentry1, hl0]

set_option maxHeartbeats 1000000 in
/-- Decode of the Exif sub-IFD written for a UserComment-only record. -/
theorem decodeIfd_c4_uc (td : Buf) (u : List Nat)
    (htdlen : td.len = 52 + u.length)
    (hu : ∀ c ∈ u, c < 128) (hN : u.length ≤ 65463)
    (htdmem : ∀ p, p < 52 + u.length → td.mem p = (c4bytesUc u).getD p 0) :
    decodeIfd td 26 true = some
      [(0x9286, 7, .uint8s (asciiCommentHeader ++ u.map (· % 256)))] := by
  have m26 : td.mem 26 = 1 := by rw [htdmem 26 (by omega)]; rfl
  have m27 : td.mem 27 = 0 := by rw [htdmem 27 (by omega)]; rfl
  have m28 : td.mem 28 = 134 := by rw [htdmem 28 (by omega)]; rfl
  have m29 : td.mem 29 = 146 := by rw [htdmem 29 (by omega)]; rfl
  have m30 : td.mem 30 = 7 := by rw [htdmem 30 (by omega)]; rfl
  have m31 : td.mem 31 = 0 := by rw [htdmem 31 (by omega)]; rfl
  have m32 : td.mem 32 = (8 + u.length) % 4294967296 % 256 := by
    rw [htdmem 32 (by omega)]; rfl
  have m33 : td.mem 33 = (8 + u.length) % 4294967296 / 256 % 256 := by
    rw [htdmem 33 (by omega)]; rfl
  have m34 : td.mem 34 = (8 + u.length) % 4294967296 / 65536 % 256 := by
    rw [htdmem 34 (by omega)]; rfl
  have m35 : td.mem 35 = (8 + u.length) % 4294967296 / 16777216 % 256 := by
    rw [htdmem 35 (by omega)]; rfl
  have m36 : td.mem 36 = 44 % 4294967296 % 256 := by rw [htdmem 36 (by omega)]; rfl
  have m37 : td.mem 37 = 44 % 4294967296 / 256 % 256 := by rw [htdmem 37 (by omega)]; rfl
  have m38 : td.mem 38 = 44 % 4294967296 / 65536 % 256 := by rw [htdmem 38 (by omega)]; rfl
  have m39 : td.mem 39 = 44 % 4294967296 / 16777216 % 256 := by
    rw [htdmem 39 (by omega)]; rfl
  have hc : readU16 td true 26 = some 1 := by
    rw [readU16LE_eval2 td 26 1 0 (by omega) m26 m27]
  have htag1 : readU16 td true 28 = some 37510 := by
    rw [readU16LE_eval2 td 28 134 146 (by omega) m28 m29]
  have hty1 : readU16 td true 30 = some 7 := by
    rw [readU16LE_eval2 td 30 7 0 (by omega) m30 m31]
  have hcnt1 : readU32 td true 32 = some (8 + u.length) := by
    rw [readU32LE_eval2 td 32 _ _ _ _ (by omega) m32 m33 m34 m35]
    congr 1
    omega
  have hoff1 : readU32 td true 36 = some 44 := by
    rw [readU32LE_eval2 td 36 _ _ _ _ (by omega) m36 m37 m38 m39]
  have hxs : ∀ c ∈ asciiCommentHeader ++ u.map (· % 256), c < 256 := by
    intro c hc2
    simp [asciiCommentHeader] at hc2
    rcases hc2 with rfl | rfl | rfl | rfl | rfl | rfl | rfl | rfl | ⟨x, hx, rfl⟩ <;> omega
  have huc : readLoop 1 (fun p => get8 td p) 44 (8 + u.length) =
      some (asciiCommentHeader ++ u.map (· % 256)) := by
    rw [readBytes_eval2 td (asciiCommentHeader ++ u.map (· % 256)) 44 (8 + u.length)
      (by simp [asciiCommentHeader]; omega) (by omega)
      (fun i hi => by
        rw [htdmem (44 + i) (by omega), c4bytesUc_getD_payload,
          getD_mod256 _ _ hxs]
        rfl)]
    congr 1
    exact map_mod256_eq _ hxs
  have hentry1 : readEntry td true 28 =
      some ((37510, 7, EntryValue.uint8s (asciiCommentHeader ++ u.map (· % 256))), 40) := by
    simp [readEntry, readEntryValue, htag1, hty1, hcnt1, getTypeSize, hoff1, huc,
      show ¬(8 + u.length ≤ 4) from by omega]
  have hl1 : readEntriesLoop td true 28 1 =
      (readEntry td true 28).bind (fun en =>
        (readEntriesLoop td true en.2 0).bind fun rest => some (en.1 :: rest)) := rfl
  have hl0 : ∀ p, readEntriesLoop td true p 0 = some [] := fun _ => rfl
  simp [decodeIfd, hc, hl1, hentry1, hl0]


set_option maxHeartbeats 1000000 in
/-- Full decode of the framed Exif payload for the empty record. -/
theorem c4_decode_none (L : Nat) (M : Nat → Nat)
    (hL : L = 32)
    (hmem : ∀ q, q < 32 → M q = c4bytesNone.getD q 0) :
    decodeExif (exifFrame ⟨L, M⟩) = some ⟨none, none⟩ := by
  subst hL
  set b := exifFrame ⟨32, M⟩ with hb
  have hblen : b.len = 40 := by rw [hb, exifFrame_len]
  have htdlen : (b.drop 8).len = 32 := by rw [hb, exifFrame_drop_len]
  have htdmem : ∀ p, p < 32 → (b.drop 8).mem p = c4bytesNone.getD p 0 := by
    intro p hp
    rw [hb, exifFrame_drop_mem ⟨32, M⟩ p hp]
    exact hmem p hp
  have hpre : ∀ q, q < 26 → c4bytesNone.getD q 0 = exifTiffPrefix.getD q 0 := by
    intro q hq
    interval_cases q <;> rfl
  have htiff : decodeTiff (b.drop 8) = some ⟨true, [[(0x8769, 4, .uint32s [26])]]⟩ :=
    decodeTiff_c4 (b.drop 8) (by omega)
      (fun q hq => by rw [htdmem q (by omega), hpre q hq])
  have hchild : decodeIfd (b.drop 8) 26 true = some [] :=
    decodeIfd_c4_none (b.drop 8) htdlen htdmem
  have hsize : readU16 b false 0 = some 40 := by
    rw [readU16BE_eval2 b 0 _ _ (by omega) (exifFrame_mem0 ⟨32, M⟩)
      (exifFrame_mem1 ⟨32, M⟩)]
    norm_num
  obtain ⟨g2, g3, g4, g5, g6, g7⟩ := exifFrame_memhdr ⟨32, M⟩
  have hg2 : get8 b 2 = some 0x45 := get8_eval2 b 2 0x45 (by omega) g2
  have hg3 : get8 b 3 = some 0x78 := get8_eval2 b 3 0x78 (by omega) g3
  have hg4 : get8 b 4 = some 0x69 := get8_eval2 b 4 0x69 (by omega) g4
  have hg5 : get8 b 5 = some 0x66 := get8_eval2 b 5 0x66 (by omega) g5
  have hg6 : get8 b 6 = some 0 := get8_eval2 b 6 0 (by omega) g6
  have hg7 : get8 b 7 = some 0 := get8_eval2 b 7 0 (by omega) g7
  simp [decodeExif, hsize, hblen, hg2, hg3, hg4, hg5, hg6, hg7, htiff, hchild,
    EntryValue.jsLength, EntryValue.numAt, readExifIfd, emptyExif]

set_option maxHeartbeats 1000000 in
/-- Full decode of the framed Exif payload for an ExifVersion-only record. -/
theorem c4_decode_ev (L : Nat) (M : Nat → Nat) (s0 s1 s2 s3 : Nat)
    (hL : L = 44)
    (hs0 : s0 < 128) (hs1 : s1 < 128) (hs2 : s2 < 128) (hs3 : s3 < 128)
    (hmem : ∀ q, q < 44 → M q = (c4bytesEv [s0, s1, s2, s3]).getD q 0) :
    decodeExif (exifFrame ⟨L, M⟩) = some ⟨some [s0, s1, s2, s3], none⟩ := by
  subst hL
  set b := exifFrame ⟨44, M⟩ with hb
  have hblen : b.len = 52 := by rw [hb, exifFrame_len]
  have htdlen : (b.drop 8).len = 44 := by rw [hb, exifFrame_drop_len]
  have htdmem : ∀ p, p < 44 → (b.drop 8).mem p = (c4bytesEv [s0, s1, s2, s3]).getD p 0 := by
    intro p hp
    rw [hb, exifFrame_drop_mem ⟨44, M⟩ p hp]
    exact hmem p hp
  have hpre : ∀ q, q < 26 →
      (c4bytesEv [s0, s1, s2, s3]).getD q 0 = exifTiffPrefix.getD q 0 := by
    intro q hq
    interval_cases q <;> rfl
  have htiff : decodeTiff (b.drop 8) = some ⟨true, [[(0x8769, 4, .uint32s [26])]]⟩ :=
    decodeTiff_c4 (b.drop 8) (by omega)
      (fun q hq => by rw [htdmem q (by omega), hpre q hq])
  have hchild : decodeIfd (b.drop 8) 26 true =
      some [(0x9000, 7, .uint8s [s0, s1, s2, s3])] :=
    decodeIfd_c4_ev (b.drop 8) s0 s1 s2 s3 htdlen hs0 hs1 hs2 hs3 htdmem
  have hsize : readU16 b false 0 = some 52 := by
    rw [readU16BE_eval2 b 0 _ _ (by omega) (exifFrame_mem0 ⟨44, M⟩)
      (exifFrame_mem1 ⟨44, M⟩)]
    norm_num
  obtain ⟨g2, g3, g4, g5, g6, g7⟩ := exifFrame_memhdr ⟨44, M⟩
  have hg2 : get8 b 2 = some 0x45 := get8_eval2 b 2 0x45 (by omega) g2
  have hg3 : get8 b 3 = some 0x78 := get8_eval2 b 3 0x78 (by omega) g3
  have hg4 : get8 b 4 = some 0x69 := get8_eval2 b 4 0x69 (by omega) g4
  have hg5 : get8 b 5 = some 0x66 := get8_eval2 b 5 0x66 (by omega) g5
  have hg6 : get8 b 6 = some 0 := get8_eval2 b 6 0 (by omega) g6
  have hg7 : get8 b 7 = some 0 := get8_eval2 b 7 0 (by omega) g7
  simp [decodeExif, hsize, hblen, hg2, hg3, hg4, hg5, hg6, hg7, htiff, hchild,
    EntryValue.jsLength, EntryValue.numAt, readExifIfd, EntryValue.bytes, emptyExif]

set_option maxHeartbeats 1000000 in
/-- Full decode of the framed Exif payload for a UserComment-only record. -/
theorem c4_decode_uc (L : Nat) (M : Nat → Nat) (u : List Nat)
    (hL : L = 52 + u.length) (hN : u.length ≤ 65463)
    (hu : ∀ c ∈ u, c < 128)
    (hmem : ∀ q, q < 52 + u.length → M q = (c4bytesUc u).getD q 0) :
    decodeExif (exifFrame ⟨L, M⟩) = some ⟨none, some u⟩ := by
  subst hL
  set b := exifFrame ⟨52 + u.length, M⟩ with hb
  have hblen : b.len = 60 + u.length := by
    rw [hb, exifFrame_len]
    show 52 + u.length + 8 = 60 + u.length
    omega
  have htdlen : (b.drop 8).len = 52 + u.length := by rw [hb, exifFrame_drop_len]
  have htdmem : ∀ p, p < 52 + u.length → (b.drop 8).mem p = (c4bytesUc u).getD p 0 := by
    intro p hp
    rw [hb, exifFrame_drop_mem ⟨52 + u.length, M⟩ p hp]
    exact hmem p hp
  have hpre : ∀ q, q < 26 → (c4bytesUc u).getD q 0 = exifTiffPrefix.getD q 0 := by
    intro q hq
    interval_cases q <;> rfl
  have htiff : decodeTiff (b.drop 8) = some ⟨true, [[(0x8769, 4, .uint32s [26])]]⟩ :=
    decodeTiff_c4 (b.drop 8) (by omega)
      (fun q hq => by rw [htdmem q (by omega), hpre q hq])
  have hchild : decodeIfd (b.drop 8) 26 true =
      some [(0x9286, 7, .uint8s (asciiCommentHeader ++ u.map (· % 256)))] :=
    decodeIfd_c4_uc (b.drop 8) u htdlen hu hN htdmem
  have hsize : readU16 b false 0 = some (60 + u.length) := by
    rw [readU16BE_eval2 b 0 _ _ (by omega) (exifFrame_mem0 ⟨52 + u.length, M⟩)
      (exifFrame_mem1 ⟨52 + u.length, M⟩)]
    congr 1
    show 256 * ((52 + u.length + 8) % 65536 / 256 % 256) +
      (52 + u.length + 8) % 65536 % 256 = 60 + u.length
    omega
  obtain ⟨g2, g3, g4, g5, g6, g7⟩ := exifFrame_memhdr ⟨52 + u.length, M⟩
  have hg2 : get8 b 2 = some 0x45 := get8_eval2 b 2 0x45 (by omega) g2
  have hg3 : get8 b 3 = some 0x78 := get8_eval2 b 3 0x78 (by omega) g3
  have hg4 : get8 b 4 = some 0x69 := get8_eval2 b 4 0x69 (by omega) g4
  have hg5 : get8 b 5 = some 0x66 := get8_eval2 b 5 0x66 (by omega) g5
  have hg6 : get8 b 6 = some 0 := get8_eval2 b 6 0 (by omega) g6
  have hg7 : get8 b 7 = some 0 := get8_eval2 b 7 0 (by omega) g7
  have hdrop8 : (asciiCommentHeader ++ u.map (· % 256)).drop 8 = u.map (· % 256) := rfl
  have hdrop8u : (asciiCommentHeader ++ u).drop 8 = u := by
    have := List.drop_left asciiCommentHeader u
    simpa [asciiCommentHeader] using this
  simp [decodeExif, hsize, hblen, hdrop8u, hg2, hg3, hg4, hg5, hg6, hg7, htiff, hchild,
    EntryValue.jsLength, EntryValue.numAt, readExifIfd, EntryValue.bytes, emptyExif,
    hdrop8, map_mod256_eq u (fun c hc => by have := hu c hc; omega)]


/-- After replacing the first APP1 segment's data, the first APP1 segment
found is exactly the replaced one. -/
theorem find?_replaceFirstApp1 (l : List JpgSegment) (d : Buf)
    (h : (l.find? (fun s => s.type == 0xE1)).isSome) :
    (replaceFirstApp1 l d).find? (fun s => s.type == 0xE1) = some ⟨0xE1, d⟩ := by
  induction l with
  | nil => simp [List.find?] at h
  | cons s rest ih =>
    by_cases hs : s.type = 0xE1
    · simp [replaceFirstApp1, hs, List.find?]
    · have h' : (rest.find? (fun s => s.type == 0xE1)).isSome := by
        simpa [List.find?_cons, hs] using h
      simpa [replaceFirstApp1, hs, List.find?_cons] using ih h'

set_option maxHeartbeats 1000000 in
/-- Claim C4 (amended): for a JPEG with an APP1 segment and a record whose
present fields are well-formed — ExifVersion exactly 4 ASCII codes,
UserComment ASCII codes with length at most 65463 so that the framed
payload's u16 size field does not overflow — updating and re-decoding the
JPEG Exif returns exactly the record. -/
theorem c4_update_decode_roundtrip (jpg : Jpg) (r : ExifRecord)
    (happ1 : (jpg.segments.find? (fun s => s.type == 0xE1)).isSome)
    (hev : ∀ s, r.exifVersion = some s → s.length = 4 ∧ ∀ c ∈ s, c < 128)
    (huc : ∀ u, r.userComment = some u → u.length ≤ 65463 ∧ ∀ c ∈ u, c < 128) :
    (updateJpgExif jpg r).bind decodeJpgExif = some r := by
  obtain ⟨seg, hseg⟩ := Option.isSome_iff_exists.mp happ1
  have hmain : ∀ (r' : ExifRecord) (et : Buf), encodeExif r' = some et →
      decodeExif (exifFrame et) = some r' →
      (updateJpgExif jpg r').bind decodeJpgExif = some r' := by
    intro r' et hET hdec
    simp [updateJpgExif, hseg, hET, decodeJpgExif,
      find?_replaceFirstApp1 jpg.segments (exifFrame et) happ1, hdec]
  obtain ⟨ev, uc⟩ := r
  cases ev with
  | none =>
    cases uc with
    | none =>
      cases hET : encodeExif ⟨none, none⟩ with
      | none =>
        have hlen := encodeExif_none_len
        rw [hET] at hlen
        simp at hlen
      | some et =>
        obtain ⟨L, M⟩ := et
        have hlen := encodeExif_none_len
        rw [hET] at hlen
        simp at hlen
        have hmem : ∀ q, q < 32 → M q = c4bytesNone.getD q 0 := by
          intro q hq
          have h := encodeExif_none_mem q hq
          rw [hET] at h
          simpa using h
        exact hmain ⟨none, none⟩ ⟨L, M⟩ hET (c4_decode_none L M hlen hmem)
    | some u =>
      obtain ⟨hNle, hucodes⟩ := huc u rfl
      cases hET : encodeExif ⟨none, some u⟩ with
      | none =>
        have hlen := encodeExif_uc_len u
        rw [hET] at hlen
        simp at hlen
      | some et =>
        obtain ⟨L, M⟩ := et
        have hlen := encodeExif_uc_len u
        rw [hET] at hlen
        simp at hlen
        have hmem : ∀ q, q < 52 + u.length → M q = (c4bytesUc u).getD q 0 := by
          intro q hq
          have h := encodeExif_uc_mem u q hq
          rw [hET] at h
          simpa using h
        exact hmain ⟨none, some u⟩ ⟨L, M⟩ hET
          (c4_decode_uc L M u (by omega) hNle hucodes hmem)
  | some s =>
    obtain ⟨h4, hcodes⟩ := hev s rfl
    rcases s with _ | ⟨s0, s⟩
    · simp at h4
    rcases s with _ | ⟨s1, s⟩
    · simp at h4
    rcases s with _ | ⟨s2, s⟩
    · simp at h4
    rcases s with _ | ⟨s3, s⟩
    · simp at h4
    obtain rfl : s = [] := by
      cases s with
      | nil => rfl
      | cons s4 t => simp at h4
    have hs0 : s0 < 128 := hcodes s0 (by simp)
    have hs1 : s1 < 128 := hcodes s1 (by simp)
    have hs2 : s2 < 128 := hcodes s2 (by simp)
    have hs3 : s3 < 128 := hcodes s3 (by simp)
    cases uc with
    | none =>
      cases hET : encodeExif ⟨some [s0, s1, s2, s3], none⟩ with
      | none =>
        have hlen := encodeExif_ev_len s0 s1 s2 s3
        rw [hET] at hlen
        simp at hlen
      | some et =>
        obtain ⟨L, M⟩ := et
        have hlen := encodeExif_ev_len s0 s1 s2 s3
        rw [hET] at hlen
        simp at hlen
        have hmem : ∀ q, q < 44 → M q = (c4bytesEv [s0, s1, s2, s3]).getD q 0 := by
          intro q hq
          have h := encodeExif_ev_mem s0 s1 s2 s3 q hq
          rw [hET] at h
          simpa using h
        exact hmain ⟨some [s0, s1, s2, s3], none⟩ ⟨L, M⟩ hET
          (c4_decode_ev L M s0 s1 s2 s3 hlen hs0 hs1 hs2 hs3 hmem)
    | some u =>
      obtain ⟨hNle, hucodes⟩ := huc u rfl
      cases hET : encodeExif ⟨some [s0, s1, s2, s3], some u⟩ with
      | none =>
        have hlen := encodeExif_both_len s0 s1 s2 s3 u
        rw [hET] at hlen
        simp at hlen
      | some et =>
        obtain ⟨L, M⟩ := et
        have hlen := encodeExif_both_len s0 s1 s2 s3 u
        rw [hET] at hlen
        simp at hlen
        have hmem : ∀ q, q < 64 + u.length →
            M q = (c4bytesBoth [s0, s1, s2, s3] u).getD q 0 := by
          intro q hq
          have h := encodeExif_both_mem s0 s1 s2 s3 u q hq
          rw [hET] at h
          simpa using h
        exact hmain ⟨some [s0, s1, s2, s3], some u⟩ ⟨L, M⟩ hET
          (c4_decode_both L M s0 s1 s2 s3 u (by omega) hNle hs0 hs1 hs2 hs3 hucodes hmem)

/-- Witness for C4: a JPEG with one (empty) APP1 segment and the empty
record satisfy the hypotheses, and the update/decode round trip holds. -/
theorem c4_update_decode_roundtrip_witness :
    ((⟨[⟨0xE1, Buf.ofList []⟩]⟩ : Jpg).segments.find? (fun s => s.type == 0xE1)).isSome = true ∧
    (∀ s, (⟨none, none⟩ : ExifRecord).exifVersion = some s →
      s.length = 4 ∧ ∀ c ∈ s, c < 128) ∧
    (∀ u, (⟨none, none⟩ : ExifRecord).userComment = some u →
      u.length ≤ 65463 ∧ ∀ c ∈ u, c < 128) ∧
    (updateJpgExif ⟨[⟨0xE1, Buf.ofList []⟩]⟩ ⟨none, none⟩).bind decodeJpgExif =
      some ⟨none, none⟩ :=
  ⟨rfl, by simp, by simp,
    c4_update_decode_roundtrip ⟨[⟨0xE1, Buf.ofList []⟩]⟩ ⟨none, none⟩ rfl
      (by simp) (by simp)⟩

set_option maxHeartbeats 1000000 in
/-- With an APP1 segment present, a 65476-byte UserComment makes the
framed payload 65536 bytes, the u16 size field wraps to 0 and re-decoding
fails. -/
theorem c4_size_wrap (jpg : Jpg) (seg : JpgSegment)
    (hseg : jpg.segments.find? (fun s => s.type == 0xE1) = some seg)
    (u : List Nat) (hul : u.length = 65476) :
    (updateJpgExif jpg ⟨none, some u⟩).bind decodeJpgExif = none := by
  cases hET : encodeExif ⟨none, some u⟩ with
  | none =>
    simp [updateJpgExif, hseg, hET]
  | some et =>
    obtain ⟨L, M⟩ := et
    have hlen := encodeExif_uc_len u
    rw [hET] at hlen
    simp [hul] at hlen
    subst hlen
    have hsize : readU16 (exifFrame ⟨65528, M⟩) false 0 = some 0 := by
      rw [readU16BE_eval2 _ 0 _ _ (by rw [exifFrame_len]; norm_num)
        (exifFrame_mem0 ⟨65528, M⟩) (exifFrame_mem1 ⟨65528, M⟩)]
      norm_num
    have hdec : decodeExif (exifFrame ⟨65528, M⟩) = none := by
      simp [decodeExif, hsize, exifFrame_len]
    have happ1 : (jpg.segments.find? (fun s => s.type == 0xE1)).isSome = true := by
      simp [hseg]
    simp [updateJpgExif, hseg, hET, decodeJpgExif,
      find?_replaceFirstApp1 jpg.segments _ happ1, hdec]

/-- Counterexample to C4 as stated: a 65476-character ASCII UserComment
(all `"A"`) makes the framed payload 65536 bytes long, the big-endian u16
size field wraps to 0, and re-decoding rejects the header, so the round
trip fails even though the record only uses defined fields with an ASCII
UserComment. -/
theorem c4_counterexample :
    (updateJpgExif ⟨[⟨0xE1, Buf.ofList []⟩]⟩
        ⟨none, some (List.replicate 65476 65)⟩).bind decodeJpgExif = none :=
  c4_size_wrap ⟨[⟨0xE1, Buf.ofList []⟩]⟩ ⟨0xE1, Buf.ofList []⟩ rfl _
    (List.length_replicate _ _)

end FMU
